import Mathlib

/-!
# Register operations of the TAO layer, the integer power and the key pool

The first part is a shallow embedding of `TAO::Operation::Debit`
(src/TAO/Operation/debit.cpp); `math::pow` (src/Util/include/math.h), the key pool of the
legacy wallet (src/Legacy/keypool.cpp) and `Finance::ListBalances`
(src/TAO/API/finance/balances.cpp) follow, each under its own heading.

`Debit` is embedded together with
the parts of the register layer it touches.  The register state class, the account object,
the data stream of a transaction, the enumerations and the register database are declared in
headers that are not among the sources; they are modelled below from the specification and
from the way `Debit` uses them.  The checksum function and the validity predicate of a state
are kept abstract: they are parameters of the embedding.

Machine integers are natural numbers, reduced modulo `2 ^ 64` where the source computes on
`uint64_t`.
-/

/-- Little-endian encoding of `n` on `k` bytes (the value is truncated to `k` bytes). -/
def toBytes : Nat → Nat → List Nat
  | 0, _ => []
  | k + 1, n => (n % 256) :: toBytes k (n / 256)

/-- Little-endian decoding of a byte string; every cell is read as a byte. -/
def fromBytes : List Nat → Nat
  | [] => 0
  | b :: bs => b % 256 + 256 * fromBytes bs

namespace TAO

namespace Register

/-- Modelled from the spec: the bits of `TAO::Register::FLAGS` (enum.h is not among the
sources).  The specification names four bits of a bitset. -/
def FLAGS.PRESTATE : Nat := 2

/-- Modelled from the spec: builder bit that embeds the post-state checksum. -/
def FLAGS.POSTSTATE : Nat := 4

/-- Modelled from the spec: validator bit that verifies and commits. -/
def FLAGS.WRITE : Nat := 8

/-- Modelled from the spec: validator bit that verifies without committing. -/
def FLAGS.MEMPOOL : Nat := 16

/-- Modelled from the spec: the marker bytes of `TAO::Register::STATES`.  The source
initialises its marker variable with `0`, commented `RESERVED`. -/
def STATES.RESERVED : Nat := 0

/-- Modelled from the spec: marker that precedes an embedded pre-state. -/
def STATES.PRESTATE : Nat := 1

/-- Modelled from the spec: marker that precedes an embedded post-state checksum. -/
def STATES.POSTSTATE : Nat := 2

/-- Modelled from the spec: the register type discriminant of an account. -/
def OBJECT.ACCOUNT : Nat := 2

/-- The test `nFlags & FLAG` of the source, read as a C++ condition. -/
def hasFlag (nFlags flag : Nat) : Bool := (nFlags &&& flag) != 0

/-- Modelled from the spec: the typed account view over the bytes of a register
(`balance: u64`, `token: Address`, `stake: u64`); account.h is not among the sources. -/
structure Account where
  nBalance : Nat
  hashToken : Nat
  nStake : Nat
  deriving DecidableEq, Repr

/-- Modelled from the spec: canonical fixed-order encoding of an account. -/
def Account.Serialize (a : Account) : List Nat :=
  toBytes 8 a.nBalance ++ toBytes 32 a.hashToken ++ toBytes 8 a.nStake

/-- Modelled from the spec: decoding of an account from the front of a byte string; it
fails when the bytes run out. -/
def Account.Unserialize (vch : List Nat) : Option Account :=
  if vch.length < 48 then none
  else some
    { nBalance := fromBytes (vch.take 8)
      hashToken := fromBytes ((vch.drop 8).take 32)
      nStake := fromBytes ((vch.drop 40).take 8) }

/-- Modelled from the spec: the durable content of a register (`owner`, `type`,
`timestamp`, `data`); state.h is not among the sources.  The in-memory read cursor of the
class is left out: it is zero on every state obtained from the database or from a stream,
and `ClearState` resets it. -/
structure State where
  hashOwner : Nat
  nType : Nat
  nTimestamp : Nat
  vchState : List Nat
  deriving DecidableEq, Repr

/-- Modelled from the spec: the default-constructed state declared at the top of `Debit`. -/
def State.null : State :=
  { hashOwner := 0, nType := 0, nTimestamp := 0, vchState := [] }

/-- Modelled from the spec: `ClearState` empties the byte payload. -/
def State.ClearState (s : State) : State := { s with vchState := [] }

/-- Modelled from the spec: `state >> account` decodes the typed view from the payload. -/
def State.readAccount (s : State) : Option Account := Account.Unserialize s.vchState

/-- Modelled from the spec: `state << account` appends the encoded view to the payload. -/
def State.writeAccount (s : State) (a : Account) : State :=
  { s with vchState := s.vchState ++ a.Serialize }

/-- The two members of the state class that stay abstract: the validity predicate
(`IsValid`) and the hash of the canonical serialization (`GetHash`, truncated to 64 bits
where it is used). -/
structure StateOps where
  IsValid : State → Bool
  GetHash : State → Nat

/-- The `uint64_t` returned by `state.GetHash()`. -/
def StateOps.hash64 (ops : StateOps) (s : State) : Nat := ops.GetHash s % 2 ^ 64

end Register

/-- Modelled from the spec: one serialized value of an operation stream.  The stream is
kept at the level of its segments: a marker byte, a serialized register state, or a 64-bit
checksum. -/
inductive Item where
  | u8 (n : Nat)
  | state (s : Register.State)
  | u64 (n : Nat)
  deriving DecidableEq, Repr

/-- Modelled from the spec: the data stream `ssRegister` of a transaction: the values
written so far and the position of the next read. -/
structure DataStream where
  vch : List Item
  nReadPos : Nat
  deriving DecidableEq, Repr

namespace DataStream

/-- Modelled from the spec: the stream `ss << (uint8_t) n` (append a marker byte). -/
def writeU8 (ss : DataStream) (n : Nat) : DataStream :=
  { ss with vch := ss.vch ++ [Item.u8 (n % 256)] }

/-- Modelled from the spec: the stream `ss << state` (append a serialized state). -/
def writeState (ss : DataStream) (s : Register.State) : DataStream :=
  { ss with vch := ss.vch ++ [Item.state s] }

/-- Modelled from the spec: the stream `ss << (uint64_t) n` (append a checksum). -/
def writeU64 (ss : DataStream) (n : Nat) : DataStream :=
  { ss with vch := ss.vch ++ [Item.u64 (n % 2 ^ 64)] }

/-- Modelled from the spec: the read `ss >> nState` of a marker byte; `none` is a stream
format error (end of stream, or a segment of another kind). -/
def readU8 (ss : DataStream) : Option (Nat × DataStream) :=
  match ss.vch.get? ss.nReadPos with
  | some (Item.u8 n) => some (n % 256, { ss with nReadPos := ss.nReadPos + 1 })
  | _ => none

/-- Modelled from the spec: the read `ss >> state` of a register state. -/
def readState (ss : DataStream) : Option (Register.State × DataStream) :=
  match ss.vch.get? ss.nReadPos with
  | some (Item.state s) => some (s, { ss with nReadPos := ss.nReadPos + 1 })
  | _ => none

/-- Modelled from the spec: the read `ss >> nChecksum` of a 64-bit checksum. -/
def readU64 (ss : DataStream) : Option (Nat × DataStream) :=
  match ss.vch.get? ss.nReadPos with
  | some (Item.u64 n) => some (n % 2 ^ 64, { ss with nReadPos := ss.nReadPos + 1 })
  | _ => none

end DataStream

namespace Ledger

/-- Modelled from the spec: the two members of `TAO::Ledger::Transaction` that `Debit`
uses (transaction.h is not among the sources). -/
structure Transaction where
  ssRegister : DataStream
  nTimestamp : Nat
  deriving DecidableEq, Repr

end Ledger

end TAO

namespace LLD

/-- Modelled from the spec: the register database behind `LLD::regDB`, consumed through
`read(address) -> Option<RegisterState>` and `write(address, state) -> Result`.  Whether a
write succeeds is decided by the store (`fnAccept`); a write that fails leaves the store
as it was. -/
structure RegisterDB where
  mapStates : Nat → Option TAO.Register.State
  fnAccept : Nat → TAO.Register.State → Bool

/-- Modelled from the spec: the call `regDB->ReadState(hashAddress, state)`. -/
def RegisterDB.ReadState (db : RegisterDB) (hashAddress : Nat) : Option TAO.Register.State :=
  db.mapStates hashAddress

/-- Modelled from the spec: the call `regDB->WriteState(hashAddress, state)`: the returned
flag and the store afterwards. -/
def RegisterDB.WriteState (db : RegisterDB) (hashAddress : Nat) (state : TAO.Register.State) :
    Bool × RegisterDB :=
  if db.fnAccept hashAddress state then
    (true, { db with mapStates := fun h => if h = hashAddress then some state else db.mapStates h })
  else (false, db)

end LLD

namespace TAO

namespace Operation

open Register Ledger LLD

/-- How a call ends: it returns a `bool`, or a read fails (stream format error) and the
error leaves the function without a return value. -/
inductive Outcome where
  | ret (f : Bool)
  | threw
  deriving DecidableEq, Repr

/-- Everything observable when `Debit` ends: how it ended, the local variable `state`, the
transaction and the register database. -/
structure Result where
  out : Outcome
  state : State
  tx : Transaction
  regDB : RegisterDB

/-- The statement `account.nBalance -= nAmount` on `uint64_t`. -/
def sub64 (nBalance nAmount : Nat) : Nat := (nBalance % 2 ^ 64 + 2 ^ 64 - nAmount % 2 ^ 64) % 2 ^ 64

/-- Result of the first two blocks of `Debit`. -/
inductive Step where
  | next
  | fail
  | raise
  deriving DecidableEq, Repr

/-- Lines 45-58 of debit.cpp: under `WRITE` or `MEMPOOL` the working pre-state is popped
from the stream of the transaction.  Returns how the block ended, the local `state` and the
transaction. -/
def PopPrestate (nFlags : Nat) (state : State) (tx : Transaction) :
    Step × State × Transaction :=
  /- Get pre-states on write. -/
  if hasFlag nFlags FLAGS.WRITE || hasFlag nFlags FLAGS.MEMPOOL then
    /- Get the state byte. -/
    match tx.ssRegister.readU8 with
    | none => (Step.raise, state, tx)
    | some (nState, ss) =>
      /- Check for the pre-state. -/
      if nState != STATES.PRESTATE then (Step.fail, state, { tx with ssRegister := ss })
      else
        /- Get the pre-state. -/
        match ss.readState with
        | none => (Step.raise, state, { tx with ssRegister := ss })
        | some (s, ss) => (Step.next, s, { tx with ssRegister := ss })
  else (Step.next, state, tx)

/-- Lines 33-58 of debit.cpp: the acquisition of the working pre-state.  Returns how the
blocks ended, the local `state` and the transaction. -/
def Prestate (hashFrom nFlags : Nat) (tx : Transaction) (db : RegisterDB) :
    Step × State × Transaction :=
  /- Write pre-states. -/
  if hasFlag nFlags FLAGS.PRESTATE then
    match db.ReadState hashFrom with
    | none => (Step.fail, State.null, tx)
    | some state =>
      PopPrestate nFlags state
        { tx with ssRegister := (tx.ssRegister.writeU8 STATES.PRESTATE).writeState state }
  else PopPrestate nFlags State.null tx

/-- Lines 36-43 of debit.cpp on their own: the local `state` and the transaction after the
pre-state block, `none` when the register is missing. -/
def WritePrestate (hashFrom nFlags : Nat) (tx : Transaction) (db : RegisterDB) :
    Option (State × Transaction) :=
  if hasFlag nFlags FLAGS.PRESTATE then
    match db.ReadState hashFrom with
    | none => none
    | some state =>
      some (state,
        { tx with ssRegister := (tx.ssRegister.writeU8 STATES.PRESTATE).writeState state })
  else some (State.null, tx)

/-- Lines 76-82 of debit.cpp: the post-state built from the working pre-state and the
decoded account. -/
def Poststate (state : State) (account : Account) (nAmount nTimestamp : Nat) : State :=
  /- Change the state of account register. -/
  let account := { account with nBalance := sub64 account.nBalance nAmount }
  /- Clear the state of register. -/
  let state := state.ClearState
  let state := { state with nTimestamp := nTimestamp }
  state.writeAccount account

/-- Lines 88-90 of debit.cpp: under `POSTSTATE` the marker and the checksum of the
post-state are appended to the stream of the transaction. -/
def WritePoststate (ops : StateOps) (nFlags : Nat) (tx : Transaction) (state : State) :
    Transaction :=
  if hasFlag nFlags FLAGS.POSTSTATE then
    { tx with ssRegister :=
        (tx.ssRegister.writeU8 STATES.POSTSTATE).writeU64 (ops.hash64 state) }
  else tx

/-- The function `TAO::Operation::Debit`: authorizes funds from an account to an account. -/
def Debit (ops : StateOps) (hashFrom hashTo nAmount hashCaller nFlags : Nat)
    (tx : Transaction) (db : RegisterDB) : Result :=
  match Prestate hashFrom nFlags tx db with
  | (Step.fail, state, tx) => ⟨Outcome.ret false, state, tx, db⟩
  | (Step.raise, state, tx) => ⟨Outcome.threw, state, tx, db⟩
  | (Step.next, state, tx) =>
    /- Check ownership of register. -/
    if state.hashOwner != hashCaller then ⟨Outcome.ret false, state, tx, db⟩
    /- Skip all non account registers for now. -/
    else if state.nType != OBJECT.ACCOUNT then ⟨Outcome.ret false, state, tx, db⟩
    else
      /- Get the account object from register. -/
      match state.readAccount with
      | none => ⟨Outcome.threw, state, tx, db⟩
      | some account =>
        /- Check the balance of the from account. -/
        if nAmount > account.nBalance then ⟨Outcome.ret false, state, tx, db⟩
        else
          let state := Poststate state account nAmount tx.nTimestamp
          /- Check that the register is in a valid state. -/
          if !ops.IsValid state then ⟨Outcome.ret false, state, tx, db⟩
          else
            /- Write post-state checksum. -/
            let tx := WritePoststate ops nFlags tx state
            /- Verify the post-state checksum. -/
            if hasFlag nFlags FLAGS.WRITE || hasFlag nFlags FLAGS.MEMPOOL then
              /- Get the state byte. -/
              match tx.ssRegister.readU8 with
              | none => ⟨Outcome.threw, state, tx, db⟩
              | some (nState, ss) =>
                let tx := { tx with ssRegister := ss }
                /- Check for the pre-state. -/
                if nState != STATES.POSTSTATE then ⟨Outcome.ret false, state, tx, db⟩
                else
                  /- Get the post state checksum. -/
                  match tx.ssRegister.readU64 with
                  | none => ⟨Outcome.threw, state, tx, db⟩
                  | some (nChecksum, ss) =>
                    let tx := { tx with ssRegister := ss }
                    /- Check for matching post states. -/
                    if nChecksum != ops.hash64 state then ⟨Outcome.ret false, state, tx, db⟩
                    /- Write the register to the database. -/
                    else if hasFlag nFlags FLAGS.WRITE then
                      match db.WriteState hashFrom state with
                      | (false, db) => ⟨Outcome.ret false, state, tx, db⟩
                      | (true, db) => ⟨Outcome.ret true, state, tx, db⟩
                    else ⟨Outcome.ret true, state, tx, db⟩
            else ⟨Outcome.ret true, state, tx, db⟩

end Operation

end TAO

/-! ## Concrete data for the scenarios of the specification -/

namespace TAO

namespace Operation

open Register Ledger LLD

/-- A validity predicate and a checksum for the scenarios: a state is valid when its payload
is not empty; the checksum adds the owner, the timestamp and the decoded payload. -/
def scenarioOps : StateOps :=
  { IsValid := fun s => !s.vchState.isEmpty
    GetHash := fun s => s.hashOwner + s.nTimestamp + fromBytes s.vchState }

/-- The pre-state of the scenarios: owner `10`, an account, balance `100`. -/
def scenarioState : State :=
  { hashOwner := 10, nType := OBJECT.ACCOUNT, nTimestamp := 5,
    vchState := Account.Serialize { nBalance := 100, hashToken := 0, nStake := 0 } }

/-- A store that holds the scenario pre-state at address `1` and accepts every write. -/
def scenarioDB : RegisterDB :=
  { mapStates := fun h => if h = 1 then some scenarioState else none
    fnAccept := fun _ _ => true }

/-- The same store, refusing every write. -/
def refusingDB : RegisterDB :=
  { mapStates := fun h => if h = 1 then some scenarioState else none
    fnAccept := fun _ _ => false }

/-- A store that holds at address `1` an account of another owner (`11`, balance `500`). -/
def foreignDB : RegisterDB :=
  { mapStates := fun h =>
      if h = 1 then
        some { hashOwner := 11, nType := OBJECT.ACCOUNT, nTimestamp := 5,
               vchState := Account.Serialize { nBalance := 500, hashToken := 0, nStake := 0 } }
      else none
    fnAccept := fun _ _ => true }

/-- A transaction with an empty register stream and timestamp `99`. -/
def emptyTx : Transaction :=
  { ssRegister := { vch := [], nReadPos := 0 }, nTimestamp := 99 }

/-- A transaction at timestamp `99` whose stream embeds the scenario pre-state and the
checksum `nChecksum`, positioned at its start. -/
def streamTx (nChecksum : Nat) : Transaction :=
  { ssRegister :=
      { vch := [Item.u8 STATES.PRESTATE, Item.state scenarioState, Item.u8 STATES.POSTSTATE,
                Item.u64 nChecksum]
        nReadPos := 0 }
    nTimestamp := 99 }

end Operation

end TAO

/-! ## The integer power of `Util/include/math.h` -/

namespace math

/-- The loop of `math::pow` (math.h, lines 34-38) after `fuel` steps at most: `n` is the
32-bit counter and `nRet` the 64-bit accumulator; `none` when the fuel runs out. -/
def powLoop : Nat → Nat → Nat → Nat → Nat → Option Nat
  | 0, _, _, _, _ => none
  | fuel + 1, nBase, nExp, n, nRet =>
    if n < nExp then powLoop fuel nBase nExp ((n + 1) % 2 ^ 32) (nRet * nBase % 2 ^ 64)
    else some nRet

/-- The function `math::pow`: raises one integer to another integer's power. -/
def pow (fuel nBase nExp : Nat) : Option Nat := powLoop fuel nBase nExp 0 1

end math

/-! ## The key pool of the legacy wallet (`Legacy/keypool.cpp`)

The wallet, the wallet database and the pool entry are declared in headers that are not among
the sources; they are modelled from the way `keypool.cpp` uses them.  The set of pool indices
is a finite set of natural numbers; index arithmetic is reduced modulo `2 ^ 64`.  The mutex of
the pool is left out: the calls are sequential. -/

namespace Legacy

/-- Modelled from the spec: an entry of the key pool, a creation time and a public key
(keypoolentry.h is not among the sources). -/
structure CKeyPoolEntry where
  nTime : Nat
  vchPubKey : List Nat
  deriving DecidableEq, Repr

/-- What the key pool takes from its surroundings: the value of
`config::GetArg("-keypool", DEFAULT_KEY_POOL_SIZE)`, the constant `MINIMUM_KEY_POOL_SIZE`,
the value of `runtime::unifiedtimestamp()` and the public key the wallet generates when it
already holds a given number of keys. -/
structure Env where
  nKeyPoolArg : Int
  MINIMUM_KEY_POOL_SIZE : Nat
  nUnifiedTime : Nat
  fnNewKey : Nat → List Nat

/-- Modelled from the spec: the key pool together with the wallet that contains it and the
pool entries of the wallet database (wallet.h, walletdb.h and keypool.h are not among the
sources).  `vKeys` are the public keys the wallet holds; `fnAccept` tells whether the
database accepts a write. -/
structure CKeyPool where
  fFileBacked : Bool
  fLocked : Bool
  vKeys : List (List Nat)
  mapPool : Nat → Option CKeyPoolEntry
  fnAccept : Nat → CKeyPoolEntry → Bool
  setKeyPool : Finset Nat

/-- How a member function ends: it returns a value, or it throws (`std::runtime_error`, or
a failed `assert`); the state of the pool is kept in both cases. -/
inductive Res (α : Type) where
  | ok (val : α) (pool : CKeyPool)
  | threw (pool : CKeyPool)

/-- Modelled from the spec: `poolWallet.GenerateNewKey()`: the wallet stores the new key
and returns its public key. -/
def GenerateNewKey (env : Env) (p : CKeyPool) : List Nat × CKeyPool :=
  (env.fnNewKey p.vKeys.length, { p with vKeys := p.vKeys ++ [env.fnNewKey p.vKeys.length] })

/-- Modelled from the spec: `poolWallet.HaveKey(SK256(vchPubKey))`. -/
def HaveKey (p : CKeyPool) (vchPubKey : List Nat) : Bool := decide (vchPubKey ∈ p.vKeys)

/-- Modelled from the spec: `walletdb.WritePool(nPoolIndex, entry)`; `none` when the write
fails. -/
def WritePool (p : CKeyPool) (nPoolIndex : Nat) (entry : CKeyPoolEntry) : Option CKeyPool :=
  if p.fnAccept nPoolIndex entry then
    some { p with mapPool := fun i => if i = nPoolIndex then some entry else p.mapPool i }
  else none

/-- Modelled from the spec: `walletdb.ErasePool(nPoolIndex)`. -/
def ErasePool (p : CKeyPool) (nPoolIndex : Nat) : CKeyPool :=
  { p with mapPool := fun i => if i = nPoolIndex then none else p.mapPool i }

/-- Modelled from the spec: `walletdb.ReadPool(nPoolIndex, entry)`. -/
def ReadPool (p : CKeyPool) (nPoolIndex : Nat) : Option CKeyPoolEntry := p.mapPool nPoolIndex

/-- The target size computed in `NewKeyPool` and `TopUpKeyPool` (keypool.cpp, lines 60-61
and 95-96). -/
def nTargetSize (env : Env) : Nat :=
  let nKeyPoolSizeSetting := Int.toNat (max 0 env.nKeyPoolArg)
  max nKeyPoolSizeSetting env.MINIMUM_KEY_POOL_SIZE

/-- The loop of `NewKeyPool` (lines 63-71) with `n` iterations left and counter `i`. -/
def NewKeyLoop (env : Env) : Nat → Nat → CKeyPool → Res Unit
  | 0, _, p => Res.ok () p
  | n + 1, i, p =>
    let nPoolIndex := (i + 1) % 2 ^ 64
    let (key, p) := GenerateNewKey env p
    match WritePool p nPoolIndex { nTime := env.nUnifiedTime, vchPubKey := key } with
    | none => Res.threw p
    | some p =>
      NewKeyLoop env n (i + 1) { p with setKeyPool := insert nPoolIndex p.setKeyPool }

/-- The function `CKeyPool::NewKeyPool`. -/
def NewKeyPool (env : Env) (p : CKeyPool) : Res Bool :=
  if p.fFileBacked then
    if p.fLocked then Res.ok false p
    else
      /- Remove all entries for old key pool from database -/
      let p := { p with mapPool := fun i => if i ∈ p.setKeyPool then none else p.mapPool i }
      let p := { p with setKeyPool := ∅ }
      /- Generate a new key pool with a full set of keys -/
      let nKeys := nTargetSize env
      match NewKeyLoop env nKeys 0 p with
      | Res.threw p => Res.threw p
      | Res.ok _ p => Res.ok true p
  else Res.ok true p

/-- The loop of `TopUpKeyPool` (lines 117-131) with `n` iterations left. -/
def TopUpLoop (env : Env) : Nat → Nat → CKeyPool → Res Unit
  | 0, _, p => Res.ok () p
  | n + 1, nNewPoolIndex, p =>
    let nNewPoolIndex := (nNewPoolIndex + 1) % 2 ^ 64
    /- Generate a new key and add the key pool entry to the wallet database -/
    let (key, p) := GenerateNewKey env p
    match WritePool p nNewPoolIndex { nTime := env.nUnifiedTime, vchPubKey := key } with
    | none => Res.threw p
    | some p =>
      /- Store the pool index for the new key in the key pool -/
      TopUpLoop env n nNewPoolIndex { p with setKeyPool := insert nNewPoolIndex p.setKeyPool }

/-- The function `CKeyPool::TopUpKeyPool`. -/
def TopUpKeyPool (env : Env) (p : CKeyPool) : Res Bool :=
  if p.fFileBacked then
    /- Current key pool size -/
    let nStartingSize := p.setKeyPool.card
    /- Desired key pool size -/
    let nTargetSize := nTargetSize env
    if nStartingSize ≥ nTargetSize then Res.ok true p
    else if p.fLocked then Res.ok false p
    else
      /- Current max pool index in the pool -/
      let nCurrentMaxPoolIndex := p.setKeyPool.sup id
      match TopUpLoop env (nTargetSize - nStartingSize) nCurrentMaxPoolIndex p with
      | Res.threw p => Res.threw p
      | Res.ok _ p => Res.ok true p
  else Res.ok true p

/-- The function `CKeyPool::AddKey`. -/
def AddKey (p : CKeyPool) (keypoolEntry : CKeyPoolEntry) : Res Nat :=
  if p.fFileBacked then
    let nPoolIndex := (1 + p.setKeyPool.sup id) % 2 ^ 64
    match WritePool p nPoolIndex keypoolEntry with
    | none => Res.threw p
    | some p => Res.ok nPoolIndex { p with setKeyPool := insert nPoolIndex p.setKeyPool }
  else Res.ok 0 p

/-- The function `CKeyPool::ReserveKeyFromPool`; the two reference parameters are returned
as a pair. -/
def ReserveKeyFromPool (env : Env) (p : CKeyPool) (keypoolEntry : CKeyPoolEntry) :
    Res (Nat × CKeyPoolEntry) :=
  let nPoolIndex := 2 ^ 64 - 1
  let keypoolEntry := { keypoolEntry with vchPubKey := [] }
  if p.fFileBacked then
    match (if !p.fLocked then TopUpKeyPool env p else Res.ok true p) with
    | Res.threw p => Res.threw p
    | Res.ok _ p =>
      match p.setKeyPool.min with
      | none => Res.ok (nPoolIndex, keypoolEntry) p
      | some si =>
        /- Get the oldest key (smallest key pool index) -/
        let nPoolIndex := si
        let p := { p with setKeyPool := p.setKeyPool.erase si }
        /- Retrieve the key pool entry from the database -/
        match ReadPool p nPoolIndex with
        | none => Res.threw p
        | some keypoolEntry =>
          /- Validate that the key is a valid key for the containing wallet -/
          if !HaveKey p keypoolEntry.vchPubKey then Res.threw p
          else if keypoolEntry.vchPubKey.isEmpty then Res.threw p
          else Res.ok (nPoolIndex, keypoolEntry) p
  else Res.ok (nPoolIndex, keypoolEntry) p

/-- The function `CKeyPool::KeepKey`. -/
def KeepKey (p : CKeyPool) (nPoolIndex : Nat) : CKeyPool :=
  if p.fFileBacked then ErasePool p nPoolIndex else p

/-- The function `CKeyPool::ReturnKey`. -/
def ReturnKey (p : CKeyPool) (nPoolIndex : Nat) : CKeyPool :=
  if p.fFileBacked then { p with setKeyPool := insert nPoolIndex p.setKeyPool } else p

/-- The function `CKeyPool::GetOldestKeyPoolTime`. -/
def GetOldestKeyPoolTime (env : Env) (p : CKeyPool) : Res Nat :=
  let keypoolEntry : CKeyPoolEntry := { nTime := env.nUnifiedTime, vchPubKey := [] }
  /- ReserveKeyFromPool returns the oldest key pool entry -/
  match ReserveKeyFromPool env p keypoolEntry with
  | Res.threw p => Res.threw p
  | Res.ok (nPoolIndex, keypoolEntry) p =>
    if nPoolIndex == 2 ^ 64 - 1 then Res.ok env.nUnifiedTime p
    else
      /- Reserve call was just to access oldest key pool entry, so return it immediately -/
      Res.ok keypoolEntry.nTime (ReturnKey p nPoolIndex)

/-- The state of the pool when a member function ends. -/
def Res.pool {α : Type} : Res α → CKeyPool
  | Res.ok _ p => p
  | Res.threw p => p

/-- The value a member function returns, `none` when it throws. -/
def Res.val? {α : Type} : Res α → Option α
  | Res.ok a _ => some a
  | Res.threw _ => none

/-- Surroundings for the examples: `-keypool` is `2`, the minimum size is `1`, the clock
reads `777`, and the `n`-th generated key is the single byte `n + 1`. -/
def poolEnv : Env :=
  { nKeyPoolArg := 2, MINIMUM_KEY_POOL_SIZE := 1, nUnifiedTime := 777,
    fnNewKey := fun n => [n + 1] }

/-- A file-backed, locked wallet whose pool holds the single index `1`, with its entry in
the database. -/
def lockedPool : CKeyPool :=
  { fFileBacked := true, fLocked := true, vKeys := [[50]],
    mapPool := fun i => if i = 1 then some { nTime := 5, vchPubKey := [50] } else none,
    fnAccept := fun _ _ => true, setKeyPool := {1} }

/-- A file-backed, locked wallet with an empty pool and no pool entry in the database. -/
def emptyPool : CKeyPool :=
  { fFileBacked := true, fLocked := true, vKeys := [],
    mapPool := fun _ => none, fnAccept := fun _ _ => true, setKeyPool := ∅ }

/-- A file-backed, unlocked wallet with an empty pool while the database still holds the
entry of a reserved key at index `500`. -/
def reservedPool : CKeyPool :=
  { fFileBacked := true, fLocked := false, vKeys := [[50]],
    mapPool := fun i => if i = 500 then some { nTime := 5, vchPubKey := [50] } else none,
    fnAccept := fun _ _ => true, setKeyPool := ∅ }

/-- A file-backed, unlocked wallet whose pool holds the single index `2 ^ 64 - 1`. -/
def lastIndexPool : CKeyPool :=
  { fFileBacked := true, fLocked := false, vKeys := [[50]],
    mapPool := fun i =>
      if i = 2 ^ 64 - 1 then some { nTime := 5, vchPubKey := [50] } else none,
    fnAccept := fun _ _ => true, setKeyPool := {2 ^ 64 - 1} }

/-- A file-backed, unlocked wallet whose pool holds the single index `1`, with its entry
in the database. -/
def unlockedPool : CKeyPool :=
  { fFileBacked := true, fLocked := false, vKeys := [[50]],
    mapPool := fun i => if i = 1 then some { nTime := 5, vchPubKey := [50] } else none,
    fnAccept := fun _ _ => true, setKeyPool := {1} }

/-- A file-backed, locked wallet whose pool holds the indices `3` and `5`, each with its
entry in the database and its key in the wallet. -/
def twoKeyPool : CKeyPool :=
  { fFileBacked := true, fLocked := true, vKeys := [[30], [50]],
    mapPool := fun i =>
      if i = 3 then some { nTime := 7, vchPubKey := [30] }
      else if i = 5 then some { nTime := 9, vchPubKey := [50] } else none,
    fnAccept := fun _ _ => true, setKeyPool := {3, 5} }

/-- The same wallet when the database has lost the entry of index `3`. -/
def orphanPool : CKeyPool :=
  { fFileBacked := true, fLocked := true, vKeys := [[30], [50]],
    mapPool := fun i => if i = 5 then some { nTime := 9, vchPubKey := [50] } else none,
    fnAccept := fun _ _ => true, setKeyPool := {3, 5} }

/-- The same wallet when it does not hold the key of the entry of index `3`. -/
def strangerPool : CKeyPool :=
  { fFileBacked := true, fLocked := true, vKeys := [[50]],
    mapPool := fun i =>
      if i = 3 then some { nTime := 7, vchPubKey := [30] }
      else if i = 5 then some { nTime := 9, vchPubKey := [50] } else none,
    fnAccept := fun _ _ => true, setKeyPool := {3, 5} }

/-- A file-backed, locked wallet whose pool holds the single index `2 ^ 64 - 1`, with its
entry in the database. -/
def sentinelPool : CKeyPool :=
  { fFileBacked := true, fLocked := true, vKeys := [[50]],
    mapPool := fun i =>
      if i = 2 ^ 64 - 1 then some { nTime := 5, vchPubKey := [50] } else none,
    fnAccept := fun _ _ => true, setKeyPool := {2 ^ 64 - 1} }

end Legacy

/-! ## The balances API (`TAO/API/finance/balances.cpp`): `ListBalances`

The session, the register database, the object class and the helpers that build the JSON
entry of an account are not among the sources; what `ListBalances` takes from them is a
parameter of the embedding.  The counters are `uint32_t`: the increment of `nTotal` is reduced
modulo `2 ^ 32`. -/

namespace TAO

namespace API

/-- What `ListBalances` consults for one register address: the three tests on the address,
the read of the object from the register database, the base type of an object with the
constant `TAO::Register::OBJECTS::ACCOUNT`, and the JSON entry that lines 185-218 of
balances.cpp build for an account.  The headers and helpers behind them are not among the
sources; they are parameters of the embedding. -/
structure Registers (Object Json : Type) where
  IsAccount : Nat → Bool
  IsTrust : Nat → Bool
  IsToken : Nat → Bool
  ReadObject : Nat → Option Object
  Base : Object → Nat
  ACCOUNT : Nat
  fnBalances : Object → Json

/-- Lines 172-218 of balances.cpp for one register: `none` when one of the three `continue`
statements skips the register, otherwise the entry built for it. -/
def Registers.entry {Object Json : Type} (env : Registers Object Json) (hashRegister : Nat) :
    Option Json :=
  /- Initial check that it is an account/trust/token -/
  if !env.IsAccount hashRegister && !env.IsTrust hashRegister && !env.IsToken hashRegister then
    none
  else
    /- Get the register from the register DB -/
    match env.ReadObject hashRegister with
    | none => none
    | some object =>
      /- Check that this is an account -/
      if env.Base object != env.ACCOUNT then none
      else some (env.fnBalances object)

namespace Finance

end Finance

end API

end TAO

/-! ## Byte encoding of the account view -/

namespace TAO

namespace Register

/-- The encoding on `k` bytes has `k` bytes. -/
theorem toBytes_length (k n : Nat) : (toBytes k n).length = k := by
  induction k generalizing n with
  | zero => rfl
  | succ k ih => simp [toBytes, ih]

/-- Decoding an encoded value gives the value truncated to `k` bytes. -/
theorem fromBytes_toBytes (k n : Nat) : fromBytes (toBytes k n) = n % 256 ^ k := by
  induction k generalizing n with
  | zero => simp [toBytes, fromBytes, Nat.mod_one]
  | succ k ih =>
    simp only [toBytes, fromBytes, ih, Nat.mod_mod]
    rw [pow_succ, mul_comm (256 ^ k) 256, Nat.mod_mul]

/-- A decoded value fits in the bytes it was read from. -/
theorem fromBytes_lt (l : List Nat) : fromBytes l < 256 ^ l.length := by
  induction l with
  | nil => simp [fromBytes]
  | cons b bs ih =>
    simp only [fromBytes, List.length_cons, pow_succ]
    have hb : b % 256 < 256 := Nat.mod_lt _ (by norm_num)
    omega

/-- An encoded account has 48 bytes. -/
theorem Account.Serialize_length (a : Account) : a.Serialize.length = 48 := by
  simp [Account.Serialize, toBytes_length]

/-- Decoding the encoding of an account whose fields are in range gives the account. -/
theorem Account.Unserialize_Serialize (a : Account) (hb : a.nBalance < 2 ^ 64)
    (ht : a.hashToken < 2 ^ 256) (hs : a.nStake < 2 ^ 64) :
    Account.Unserialize a.Serialize = some a := by
  have h8 : (256 : Nat) ^ 8 = 2 ^ 64 := by norm_num
  have h32 : (256 : Nat) ^ 32 = 2 ^ 256 := by norm_num
  unfold Account.Unserialize
  rw [if_neg (by rw [Account.Serialize_length]; decide)]
  have e0 : a.Serialize = toBytes 8 a.nBalance ++ (toBytes 32 a.hashToken ++ toBytes 8 a.nStake) := by
    simp [Account.Serialize]
  have e1 : a.Serialize.take 8 = toBytes 8 a.nBalance := by
    rw [e0, List.take_left' (toBytes_length 8 _)]
  have e2 : (a.Serialize.drop 8).take 32 = toBytes 32 a.hashToken := by
    rw [e0, List.drop_left' (toBytes_length 8 _), List.take_left' (toBytes_length 32 _)]
  have e3 : (a.Serialize.drop 40).take 8 = toBytes 8 a.nStake := by
    have h40 : (toBytes 8 a.nBalance ++ toBytes 32 a.hashToken).length = 40 := by
      simp [toBytes_length]
    rw [Account.Serialize, List.drop_left' h40]
    exact List.take_of_length_le (by rw [toBytes_length])
  rw [e1, e2, e3, fromBytes_toBytes, fromBytes_toBytes, fromBytes_toBytes, h8, h32,
    Nat.mod_eq_of_lt hb, Nat.mod_eq_of_lt ht, Nat.mod_eq_of_lt hs]

/-- The fields of a decoded account are in the range of their machine type. -/
theorem Account.Unserialize_range (vch : List Nat) (a : Account)
    (h : Account.Unserialize vch = some a) :
    a.nBalance < 2 ^ 64 ∧ a.hashToken < 2 ^ 256 ∧ a.nStake < 2 ^ 64 := by
  unfold Account.Unserialize at h
  split at h
  · cases h
  · rename_i hlen
    have hlen : 48 ≤ vch.length := by omega
    injection h with h
    subst h
    refine ⟨?_, ?_, ?_⟩
    · have := fromBytes_lt (vch.take 8)
      rw [List.length_take, Nat.min_eq_left (by omega)] at this
      simpa using this
    · have := fromBytes_lt ((vch.drop 8).take 32)
      rw [List.length_take, List.length_drop, Nat.min_eq_left (by omega)] at this
      simpa using this
    · have := fromBytes_lt ((vch.drop 40).take 8)
      rw [List.length_take, List.length_drop, Nat.min_eq_left (by omega)] at this
      simpa using this

end Register

end TAO

namespace TAO

namespace Operation

open Register Ledger LLD

/-! ## Auxiliary facts about the store and the blocks of `Debit` -/

theorem WriteState_false (db : RegisterDB) (h : Nat) (s : State) (db2 : RegisterDB)
    (hw : db.WriteState h s = (false, db2)) : db2 = db := by
  unfold RegisterDB.WriteState at hw
  split at hw
  · cases hw
  · cases hw; rfl

/-- A write that succeeds was accepted and can be read back. -/
theorem WriteState_true (db : RegisterDB) (h : Nat) (s : State) (db2 : RegisterDB)
    (hw : db.WriteState h s = (true, db2)) :
    db.fnAccept h s = true ∧ db2.ReadState h = some s := by
  unfold RegisterDB.WriteState at hw
  split at hw
  · rename_i hacc
    cases hw
    exact ⟨hacc, by simp [RegisterDB.ReadState]⟩
  · cases hw

/-- The 64-bit subtraction does not wrap when the amount is at most the balance. -/
theorem sub64_eq (nBalance nAmount : Nat) (hb : nBalance < 2 ^ 64) (hle : nAmount ≤ nBalance) :
    sub64 nBalance nAmount = nBalance - nAmount := by
  unfold sub64
  omega

/-- The post-state decodes to the account of the pre-state with the balance reduced. -/
theorem Poststate_readAccount (pre : State) (account : Account) (nAmount nTimestamp : Nat)
    (hacc : pre.readAccount = some account) (hle : nAmount ≤ account.nBalance) :
    (Poststate pre account nAmount nTimestamp).readAccount =
      some { account with nBalance := account.nBalance - nAmount } := by
  obtain ⟨hb, ht, hs⟩ := Account.Unserialize_range _ _ hacc
  have h := Account.Unserialize_Serialize
    { account with nBalance := account.nBalance - nAmount }
    (by show account.nBalance - nAmount < 2 ^ 64; omega) ht hs
  simp only [Poststate, State.readAccount, State.writeAccount, State.ClearState, List.nil_append,
    sub64_eq _ _ hb hle]
  exact h

/-- The post-state keeps owner and type and carries the given timestamp. -/
theorem Poststate_fields (pre : State) (account : Account) (nAmount nTimestamp : Nat) :
    (Poststate pre account nAmount nTimestamp).hashOwner = pre.hashOwner ∧
    (Poststate pre account nAmount nTimestamp).nType = pre.nType ∧
    (Poststate pre account nAmount nTimestamp).nTimestamp = nTimestamp := by
  simp [Poststate, State.writeAccount, State.ClearState]

/-- Popping the pre-state never changes the timestamp of the transaction. -/
theorem PopPrestate_nTimestamp (nFlags : Nat) (state : State) (tx : Transaction) :
    (PopPrestate nFlags state tx).2.2.nTimestamp = tx.nTimestamp := by
  unfold PopPrestate
  repeat' split
  all_goals rfl

/-- The first two blocks never change the timestamp of the transaction. -/
theorem Prestate_nTimestamp (hashFrom nFlags : Nat) (tx : Transaction) (db : RegisterDB) :
    (Prestate hashFrom nFlags tx db).2.2.nTimestamp = tx.nTimestamp := by
  unfold Prestate
  split
  · split
    · rfl
    · rw [PopPrestate_nTimestamp]
  · rw [PopPrestate_nTimestamp]

/-- Without `PRESTATE` the first two blocks do not consult the store. -/
theorem Prestate_of_not_PRESTATE (hashFrom nFlags : Nat) (tx : Transaction)
    (db : RegisterDB) (h : hasFlag nFlags FLAGS.PRESTATE = false) :
    Prestate hashFrom nFlags tx db = PopPrestate nFlags State.null tx := by
  unfold Prestate
  simp [h]

/-- What a successful call went through, block by block. -/
theorem Debit_ok_inv (ops : StateOps) (hashFrom hashTo nAmount hashCaller nFlags : Nat)
    (tx : Transaction) (db : RegisterDB)
    (hok : (Debit ops hashFrom hashTo nAmount hashCaller nFlags tx db).out = Outcome.ret true) :
    ∃ pre tx1 account,
      Prestate hashFrom nFlags tx db = (Step.next, pre, tx1) ∧
      pre.hashOwner = hashCaller ∧ pre.nType = OBJECT.ACCOUNT ∧
      pre.readAccount = some account ∧ nAmount ≤ account.nBalance ∧
      ops.IsValid (Poststate pre account nAmount tx1.nTimestamp) = true ∧
      (Debit ops hashFrom hashTo nAmount hashCaller nFlags tx db).state =
        Poststate pre account nAmount tx1.nTimestamp ∧
      (((hasFlag nFlags FLAGS.WRITE || hasFlag nFlags FLAGS.MEMPOOL) = false ∧
          (Debit ops hashFrom hashTo nAmount hashCaller nFlags tx db).tx =
            WritePoststate ops nFlags tx1 (Poststate pre account nAmount tx1.nTimestamp) ∧
          (Debit ops hashFrom hashTo nAmount hashCaller nFlags tx db).regDB = db) ∨
        ((hasFlag nFlags FLAGS.WRITE || hasFlag nFlags FLAGS.MEMPOOL) = true ∧
          ∃ ss nChecksum ss2,
            (WritePoststate ops nFlags tx1
              (Poststate pre account nAmount tx1.nTimestamp)).ssRegister.readU8 =
                some (STATES.POSTSTATE, ss) ∧
            ss.readU64 = some (nChecksum, ss2) ∧
            nChecksum = ops.hash64 (Poststate pre account nAmount tx1.nTimestamp) ∧
            (Debit ops hashFrom hashTo nAmount hashCaller nFlags tx db).tx.ssRegister = ss2 ∧
            ((hasFlag nFlags FLAGS.WRITE = true ∧
                db.WriteState hashFrom (Poststate pre account nAmount tx1.nTimestamp) =
                  (true, (Debit ops hashFrom hashTo nAmount hashCaller nFlags tx db).regDB)) ∨
              (hasFlag nFlags FLAGS.WRITE = false ∧
                (Debit ops hashFrom hashTo nAmount hashCaller nFlags tx db).regDB = db)))) := by
  generalize hr : Debit ops hashFrom hashTo nAmount hashCaller nFlags tx db = r at hok ⊢
  unfold Debit at hr
  dsimp only at hr
  split at hr
  · subst hr; simp at hok
  · subst hr; simp at hok
  rename_i pre tx1 hP
  refine ⟨pre, tx1, ?_⟩
  split at hr
  · subst hr; simp at hok
  rename_i hown
  split at hr
  · subst hr; simp at hok
  rename_i htype
  split at hr
  · subst hr; simp at hok
  rename_i account hacc
  refine ⟨account, hP, by simpa using hown, by simpa using htype, hacc, ?_⟩
  split at hr
  · subst hr; simp at hok
  rename_i hle
  refine ⟨by omega, ?_⟩
  split at hr
  · subst hr; simp at hok
  rename_i hvalid
  refine ⟨by simpa using hvalid, ?_⟩
  split at hr
  · rename_i hflag
    split at hr
    · subst hr; simp at hok
    rename_i nState ss hmark
    split at hr
    · subst hr; simp at hok
    rename_i hpost
    have hpost : nState = STATES.POSTSTATE := by simpa using hpost
    subst hpost
    split at hr
    · subst hr; simp at hok
    rename_i nChecksum ss2 hsum
    split at hr
    · subst hr; simp at hok
    rename_i hcmp
    have hcmp : nChecksum = ops.hash64 (Poststate pre account nAmount tx1.nTimestamp) := by
      simpa using hcmp
    split at hr
    · rename_i hwrite
      split at hr
      · subst hr; simp at hok
      · rename_i db2 hw
        subst hr
        exact ⟨rfl, Or.inr ⟨hflag, ss, nChecksum, ss2, hmark, hsum, hcmp, rfl, Or.inl ⟨hwrite, hw⟩⟩⟩
    · rename_i hwrite
      subst hr
      exact ⟨rfl, Or.inr ⟨hflag, ss, nChecksum, ss2, hmark, hsum, hcmp, rfl,
        Or.inr ⟨by simpa using hwrite, rfl⟩⟩⟩
  · rename_i hflag
    subst hr
    exact ⟨rfl, Or.inl ⟨by simpa using hflag, rfl, rfl⟩⟩

/-! ## The claims about `Debit` -/

/-- A call that does not return `true` leaves the register database as it was. -/
theorem Debit_regDB_of_not_ok (ops : StateOps) (hashFrom hashTo nAmount hashCaller nFlags : Nat)
    (tx : Transaction) (db : RegisterDB)
    (h : (Debit ops hashFrom hashTo nAmount hashCaller nFlags tx db).out ≠ Outcome.ret true) :
    (Debit ops hashFrom hashTo nAmount hashCaller nFlags tx db).regDB = db := by
  generalize hr : Debit ops hashFrom hashTo nAmount hashCaller nFlags tx db = r at h ⊢
  unfold Debit at hr
  dsimp only at hr
  repeat' split at hr
  all_goals subst hr
  all_goals first
    | rfl
    | (exfalso; exact h rfl)
    | (rename_i hw; exact WriteState_false _ _ _ _ hw)

/-- C1 (conservation): when `Debit` returns `true` and the working pre-state decodes to
`account`, the amount does not exceed the balance and the post-state decodes to the same
account with balance `account.nBalance - nAmount` as a natural number: the 64-bit
subtraction did not wrap and the other fields of the account are unchanged. -/
theorem Debit_conservation (ops : StateOps)
    (hashFrom hashTo nAmount hashCaller nFlags : Nat) (tx : Transaction) (db : RegisterDB)
    (account : Account)
    (hpre : (Prestate hashFrom nFlags tx db).2.1.readAccount = some account)
    (hok : (Debit ops hashFrom hashTo nAmount hashCaller nFlags tx db).out = Outcome.ret true) :
    nAmount ≤ account.nBalance ∧
    (Debit ops hashFrom hashTo nAmount hashCaller nFlags tx db).state.readAccount =
      some { account with nBalance := account.nBalance - nAmount } := by
  obtain ⟨pre, tx1, account2, hP, -, -, hacc, hle, -, hstate, -⟩ :=
    Debit_ok_inv ops hashFrom hashTo nAmount hashCaller nFlags tx db hok
  rw [hP] at hpre
  have heq : account2 = account := by
    have h2 : pre.readAccount = some account := hpre
    rw [hacc] at h2
    exact Option.some.inj h2
  subst heq
  exact ⟨hle, by rw [hstate]; exact Poststate_readAccount pre account2 nAmount _ hacc hle⟩

/-- Witness of C1: the scenario of the specification, built with `PRESTATE|POSTSTATE`:
balance `100`, amount `30`, post-state balance `70`. -/
theorem Debit_conservation_witness :
    30 ≤ 100 ∧
    (Debit scenarioOps 1 2 30 10 6 emptyTx scenarioDB).state.readAccount =
      some { nBalance := 100 - 30, hashToken := 0, nStake := 0 } :=
  Debit_conservation scenarioOps 1 2 30 10 6 emptyTx scenarioDB
    { nBalance := 100, hashToken := 0, nStake := 0 } (by decide) (by decide)

/-- C2 (insufficient funds): for every flag set, when the working pre-state is an account
owned by the caller and `nAmount` exceeds its balance, `Debit` returns `false` and the
register database is the one before the call. -/
theorem Debit_insufficient_funds (ops : StateOps)
    (hashFrom hashTo nAmount hashCaller nFlags : Nat) (tx : Transaction) (db : RegisterDB)
    (pre : State) (tx1 : Transaction) (account : Account)
    (hpre : Prestate hashFrom nFlags tx db = (Step.next, pre, tx1))
    (hown : pre.hashOwner = hashCaller) (htype : pre.nType = OBJECT.ACCOUNT)
    (hacc : pre.readAccount = some account) (hgt : nAmount > account.nBalance) :
    (Debit ops hashFrom hashTo nAmount hashCaller nFlags tx db).out = Outcome.ret false ∧
    (Debit ops hashFrom hashTo nAmount hashCaller nFlags tx db).regDB = db := by
  unfold Debit
  rw [hpre]
  simp [hown, htype, hacc, hgt]

/-- Witness of C2: balance `100`, amount `150`, under `WRITE`: the call returns `false` and
the store is unchanged. -/
theorem Debit_insufficient_funds_witness :
    (Debit scenarioOps 1 2 150 10 FLAGS.WRITE (streamTx 0) scenarioDB).out = Outcome.ret false ∧
    (Debit scenarioOps 1 2 150 10 FLAGS.WRITE (streamTx 0) scenarioDB).regDB = scenarioDB :=
  Debit_insufficient_funds scenarioOps 1 2 150 10 FLAGS.WRITE (streamTx 0) scenarioDB
    scenarioState { ssRegister := { vch := (streamTx 0).ssRegister.vch, nReadPos := 2 },
                    nTimestamp := 99 }
    { nBalance := 100, hashToken := 0, nStake := 0 }
    (by decide) (by decide) (by decide) (by decide) (by decide)

/-- C3 (authorization): for every flag set, amount and stream, when the caller differs from
the owner of the working pre-state, `Debit` returns `false` and the register database is
the one before the call. -/
theorem Debit_unauthorized (ops : StateOps)
    (hashFrom hashTo nAmount hashCaller nFlags : Nat) (tx : Transaction) (db : RegisterDB)
    (pre : State) (tx1 : Transaction)
    (hpre : Prestate hashFrom nFlags tx db = (Step.next, pre, tx1))
    (hown : pre.hashOwner ≠ hashCaller) :
    (Debit ops hashFrom hashTo nAmount hashCaller nFlags tx db).out = Outcome.ret false ∧
    (Debit ops hashFrom hashTo nAmount hashCaller nFlags tx db).regDB = db := by
  unfold Debit
  rw [hpre]
  simp [hown]

/-- Witness of C3: caller `11` debits the account of owner `10` under `WRITE`. -/
theorem Debit_unauthorized_witness :
    (Debit scenarioOps 1 2 30 11 FLAGS.WRITE (streamTx 179) scenarioDB).out = Outcome.ret false ∧
    (Debit scenarioOps 1 2 30 11 FLAGS.WRITE (streamTx 179) scenarioDB).regDB = scenarioDB :=
  Debit_unauthorized scenarioOps 1 2 30 11 FLAGS.WRITE (streamTx 179) scenarioDB
    scenarioState { ssRegister := { vch := (streamTx 179).ssRegister.vch, nReadPos := 2 },
                    nTimestamp := 99 }
    (by decide) (by decide)

/-- The result of a builder call (`PRESTATE|POSTSTATE`) that returns `true` on an empty
stream: the state read from the store passed every check and the stream holds the four
segments of the operation. -/
theorem Debit_build_inv (ops : StateOps) (hashFrom hashTo nAmount hashCaller nTimestamp : Nat)
    (db : RegisterDB)
    (hok : (Debit ops hashFrom hashTo nAmount hashCaller (FLAGS.PRESTATE ||| FLAGS.POSTSTATE)
      { ssRegister := { vch := [], nReadPos := 0 }, nTimestamp := nTimestamp } db).out =
        Outcome.ret true) :
    ∃ pre account,
      db.ReadState hashFrom = some pre ∧
      pre.hashOwner = hashCaller ∧ pre.nType = OBJECT.ACCOUNT ∧
      pre.readAccount = some account ∧ nAmount ≤ account.nBalance ∧
      ops.IsValid (Poststate pre account nAmount nTimestamp) = true ∧
      (Debit ops hashFrom hashTo nAmount hashCaller (FLAGS.PRESTATE ||| FLAGS.POSTSTATE)
        { ssRegister := { vch := [], nReadPos := 0 }, nTimestamp := nTimestamp } db).state =
          Poststate pre account nAmount nTimestamp ∧
      (Debit ops hashFrom hashTo nAmount hashCaller (FLAGS.PRESTATE ||| FLAGS.POSTSTATE)
        { ssRegister := { vch := [], nReadPos := 0 }, nTimestamp := nTimestamp } db).tx.ssRegister.vch =
          [Item.u8 STATES.PRESTATE, Item.state pre, Item.u8 STATES.POSTSTATE,
            Item.u64 (ops.hash64 (Poststate pre account nAmount nTimestamp))] := by
  have f1 : hasFlag (FLAGS.PRESTATE ||| FLAGS.POSTSTATE) FLAGS.PRESTATE = true := by decide
  have f2 : hasFlag (FLAGS.PRESTATE ||| FLAGS.POSTSTATE) FLAGS.POSTSTATE = true := by decide
  have f3 : hasFlag (FLAGS.PRESTATE ||| FLAGS.POSTSTATE) FLAGS.WRITE = false := by decide
  have f4 : hasFlag (FLAGS.PRESTATE ||| FLAGS.POSTSTATE) FLAGS.MEMPOOL = false := by decide
  obtain ⟨pre, tx1, account, hP, hown, htype, hacc, hle, hvalid, hstate, hrest⟩ :=
    Debit_ok_inv _ _ _ _ _ _ _ _ hok
  rcases hrest with ⟨-, htx, -⟩ | ⟨hflag, -⟩
  swap
  · simp [f3, f4] at hflag
  unfold Prestate at hP
  rw [f1] at hP
  simp only [if_true] at hP
  cases hdb : db.ReadState hashFrom with
  | none => rw [hdb] at hP; simp at hP
  | some s =>
    rw [hdb] at hP
    simp only [PopPrestate, f3, f4, Bool.or_self, Bool.false_eq_true, if_false] at hP
    injection hP with _ hP
    injection hP with h1 h2
    subst h1
    subst h2
    refine ⟨s, account, rfl, hown, htype, hacc, hle, hvalid, hstate, ?_⟩
    rw [htx]
    simp [WritePoststate, f2, DataStream.writeU8, DataStream.writeU64, DataStream.writeState,
      StateOps.hash64, STATES.PRESTATE, STATES.POSTSTATE]

/-- Replay of a well-formed stream under `WRITE` alone. -/
theorem Debit_replay (ops : StateOps) (hashFrom hashTo nAmount hashCaller nTimestamp : Nat)
    (db : RegisterDB) (pre : State) (account : Account) (nChecksum : Nat)
    (hown : pre.hashOwner = hashCaller) (htype : pre.nType = OBJECT.ACCOUNT)
    (hacc : pre.readAccount = some account) (hle : nAmount ≤ account.nBalance)
    (hvalid : ops.IsValid (Poststate pre account nAmount nTimestamp) = true)
    (hsum : nChecksum % 2 ^ 64 = ops.hash64 (Poststate pre account nAmount nTimestamp)) :
    Debit ops hashFrom hashTo nAmount hashCaller FLAGS.WRITE
      { ssRegister :=
          { vch := [Item.u8 STATES.PRESTATE, Item.state pre, Item.u8 STATES.POSTSTATE,
              Item.u64 nChecksum], nReadPos := 0 },
        nTimestamp := nTimestamp } db =
      { out := Outcome.ret (db.WriteState hashFrom (Poststate pre account nAmount nTimestamp)).1
        state := Poststate pre account nAmount nTimestamp
        tx :=
          { ssRegister :=
              { vch := [Item.u8 STATES.PRESTATE, Item.state pre, Item.u8 STATES.POSTSTATE,
                  Item.u64 nChecksum], nReadPos := 4 },
            nTimestamp := nTimestamp }
        regDB := (db.WriteState hashFrom (Poststate pre account nAmount nTimestamp)).2 } := by
  have f1 : hasFlag FLAGS.WRITE FLAGS.PRESTATE = false := by decide
  have f2 : hasFlag FLAGS.WRITE FLAGS.POSTSTATE = false := by decide
  have f3 : hasFlag FLAGS.WRITE FLAGS.WRITE = true := by decide
  have hP : Prestate hashFrom FLAGS.WRITE
      { ssRegister :=
          { vch := [Item.u8 STATES.PRESTATE, Item.state pre, Item.u8 STATES.POSTSTATE,
              Item.u64 nChecksum], nReadPos := 0 },
        nTimestamp := nTimestamp } db =
      (Step.next, pre,
        { ssRegister :=
          { vch := [Item.u8 STATES.PRESTATE, Item.state pre, Item.u8 STATES.POSTSTATE,
              Item.u64 nChecksum], nReadPos := 2 },
          nTimestamp := nTimestamp }) := by
    simp [Prestate, PopPrestate, f1, f3, DataStream.readU8, DataStream.readState,
      STATES.PRESTATE]
  unfold Debit
  rw [hP]
  have hgt : ¬ nAmount > account.nBalance := by omega
  simp only [hown, htype, hacc, hgt, hvalid, WritePoststate, f2, f3, DataStream.readU8,
    DataStream.readU64, STATES.POSTSTATE, hsum]
  have hsum2 := hsum
  norm_num at hsum2
  cases hw : db.WriteState hashFrom (Poststate pre account nAmount nTimestamp) with
  | mk b d => cases b <;> simp [hsum2]

/-- C4, as stated, fails: a store that refuses the write makes the replay return `false`. -/
theorem Debit_round_trip_refused :
    refusingDB.ReadState 1 = some scenarioState ∧
    (Debit scenarioOps 1 2 30 10 (FLAGS.PRESTATE ||| FLAGS.POSTSTATE) emptyTx refusingDB).out =
      Outcome.ret true ∧
    (Debit scenarioOps 1 2 30 10 FLAGS.WRITE
      { ssRegister :=
          { vch := (Debit scenarioOps 1 2 30 10 (FLAGS.PRESTATE ||| FLAGS.POSTSTATE) emptyTx
              refusingDB).tx.ssRegister.vch,
            nReadPos := 0 },
        nTimestamp := 99 } refusingDB).out = Outcome.ret false := by
  decide

/-- C4 (round trip), amended: the stream produced by a successful `Debit` with
`PRESTATE|POSTSTATE` on an empty stream, replayed from its start under `WRITE` with the same
address, amount, caller and timestamp against a store that accepts the write of the
post-state, returns `true` and commits at `hashFrom` a post-state whose hash is the
checksum embedded in the stream. -/
theorem Debit_round_trip (ops : StateOps)
    (hashFrom hashTo nAmount hashCaller nTimestamp : Nat) (db db2 : RegisterDB)
    (hok : (Debit ops hashFrom hashTo nAmount hashCaller (FLAGS.PRESTATE ||| FLAGS.POSTSTATE)
      { ssRegister := { vch := [], nReadPos := 0 }, nTimestamp := nTimestamp } db).out =
        Outcome.ret true)
    (hw : (db2.WriteState hashFrom
      (Debit ops hashFrom hashTo nAmount hashCaller (FLAGS.PRESTATE ||| FLAGS.POSTSTATE)
        { ssRegister := { vch := [], nReadPos := 0 }, nTimestamp := nTimestamp } db).state).1 =
          true) :
    (Debit ops hashFrom hashTo nAmount hashCaller FLAGS.WRITE
      { ssRegister :=
          { vch := (Debit ops hashFrom hashTo nAmount hashCaller
              (FLAGS.PRESTATE ||| FLAGS.POSTSTATE)
              { ssRegister := { vch := [], nReadPos := 0 }, nTimestamp := nTimestamp }
              db).tx.ssRegister.vch,
            nReadPos := 0 },
        nTimestamp := nTimestamp } db2).out = Outcome.ret true ∧
    ∃ pre nChecksum post,
      (Debit ops hashFrom hashTo nAmount hashCaller (FLAGS.PRESTATE ||| FLAGS.POSTSTATE)
        { ssRegister := { vch := [], nReadPos := 0 }, nTimestamp := nTimestamp }
        db).tx.ssRegister.vch =
          [Item.u8 STATES.PRESTATE, Item.state pre, Item.u8 STATES.POSTSTATE,
            Item.u64 nChecksum] ∧
      (Debit ops hashFrom hashTo nAmount hashCaller FLAGS.WRITE
        { ssRegister :=
            { vch := (Debit ops hashFrom hashTo nAmount hashCaller
                (FLAGS.PRESTATE ||| FLAGS.POSTSTATE)
                { ssRegister := { vch := [], nReadPos := 0 }, nTimestamp := nTimestamp }
                db).tx.ssRegister.vch,
              nReadPos := 0 },
          nTimestamp := nTimestamp } db2).regDB.ReadState hashFrom = some post ∧
      ops.hash64 post = nChecksum := by
  obtain ⟨pre, account, -, hown, htype, hacc, hle, hvalid, hstate, hvch⟩ :=
    Debit_build_inv ops hashFrom hashTo nAmount hashCaller nTimestamp db hok
  rw [hstate] at hw
  have hmod : ops.hash64 (Poststate pre account nAmount nTimestamp) % 2 ^ 64 =
      ops.hash64 (Poststate pre account nAmount nTimestamp) := by
    unfold StateOps.hash64
    exact Nat.mod_mod _ _
  have hrep := Debit_replay ops hashFrom hashTo nAmount hashCaller nTimestamp db2 pre account
    (ops.hash64 (Poststate pre account nAmount nTimestamp)) hown htype hacc hle hvalid hmod
  rw [hvch, hrep]
  refine ⟨by rw [hw], pre, _, Poststate pre account nAmount nTimestamp, rfl, ?_, rfl⟩
  cases hws : db2.WriteState hashFrom (Poststate pre account nAmount nTimestamp) with
  | mk b d =>
    rw [hws] at hw
    have hb : b = true := hw
    subst hb
    exact (WriteState_true _ _ _ _ hws).2

/-- Witness of C4: the scenario pre-state, built and replayed against the same store. -/
theorem Debit_round_trip_witness :
    (Debit scenarioOps 1 2 30 10 FLAGS.WRITE
      { ssRegister :=
          { vch := (Debit scenarioOps 1 2 30 10 (FLAGS.PRESTATE ||| FLAGS.POSTSTATE)
              { ssRegister := { vch := [], nReadPos := 0 }, nTimestamp := 99 }
              scenarioDB).tx.ssRegister.vch,
            nReadPos := 0 },
        nTimestamp := 99 } scenarioDB).out = Outcome.ret true ∧
    ∃ pre nChecksum post,
      (Debit scenarioOps 1 2 30 10 (FLAGS.PRESTATE ||| FLAGS.POSTSTATE)
        { ssRegister := { vch := [], nReadPos := 0 }, nTimestamp := 99 }
        scenarioDB).tx.ssRegister.vch =
          [Item.u8 STATES.PRESTATE, Item.state pre, Item.u8 STATES.POSTSTATE,
            Item.u64 nChecksum] ∧
      (Debit scenarioOps 1 2 30 10 FLAGS.WRITE
        { ssRegister :=
            { vch := (Debit scenarioOps 1 2 30 10 (FLAGS.PRESTATE ||| FLAGS.POSTSTATE)
                { ssRegister := { vch := [], nReadPos := 0 }, nTimestamp := 99 }
                scenarioDB).tx.ssRegister.vch,
              nReadPos := 0 },
          nTimestamp := 99 } scenarioDB).regDB.ReadState 1 = some post ∧
      scenarioOps.hash64 post = nChecksum :=
  Debit_round_trip scenarioOps 1 2 30 10 99 scenarioDB scenarioDB (by decide) (by decide)

/-- C5 (tamper detection): under `WRITE` or `MEMPOOL`, once the working pre-state has been
obtained and decoded and the marker and the embedded checksum can be popped, a checksum
that differs from the hash of the recomputed post-state makes `Debit` return `false` with
the register database unchanged; `Debit` returns `true` only if the two are equal. -/
theorem Debit_tamper_detection (ops : StateOps)
    (hashFrom hashTo nAmount hashCaller nFlags : Nat) (tx : Transaction) (db : RegisterDB)
    (pre : State) (tx1 : Transaction) (account : Account)
    (nState : Nat) (ss : DataStream) (nChecksum : Nat) (ss2 : DataStream)
    (hflag : (hasFlag nFlags FLAGS.WRITE || hasFlag nFlags FLAGS.MEMPOOL) = true)
    (hpre : Prestate hashFrom nFlags tx db = (Step.next, pre, tx1))
    (hacc : pre.readAccount = some account)
    (hmark : (WritePoststate ops nFlags tx1
      (Poststate pre account nAmount tx1.nTimestamp)).ssRegister.readU8 = some (nState, ss))
    (hsum : ss.readU64 = some (nChecksum, ss2)) :
    (nChecksum ≠ ops.hash64 (Poststate pre account nAmount tx1.nTimestamp) →
      (Debit ops hashFrom hashTo nAmount hashCaller nFlags tx db).out = Outcome.ret false ∧
      (Debit ops hashFrom hashTo nAmount hashCaller nFlags tx db).regDB = db) ∧
    ((Debit ops hashFrom hashTo nAmount hashCaller nFlags tx db).out = Outcome.ret true →
      nChecksum = ops.hash64 (Poststate pre account nAmount tx1.nTimestamp)) := by
  generalize hr : Debit ops hashFrom hashTo nAmount hashCaller nFlags tx db = r
  unfold Debit at hr
  rw [hpre] at hr
  simp only [hacc, hflag, hmark, hsum, if_true] at hr
  repeat' split at hr
  all_goals subst hr
  all_goals simp_all

/-- Witness of C5: the checksum `180` is embedded where the post-state hashes to `179`. -/
theorem Debit_tamper_detection_witness :
    (Debit scenarioOps 1 2 30 10 FLAGS.WRITE (streamTx 180) scenarioDB).out =
      Outcome.ret false ∧
    (Debit scenarioOps 1 2 30 10 FLAGS.WRITE (streamTx 180) scenarioDB).regDB = scenarioDB :=
  (Debit_tamper_detection scenarioOps 1 2 30 10 FLAGS.WRITE (streamTx 180) scenarioDB
    scenarioState
    { ssRegister := { vch := (streamTx 180).ssRegister.vch, nReadPos := 2 }, nTimestamp := 99 }
    { nBalance := 100, hashToken := 0, nStake := 0 }
    STATES.POSTSTATE { vch := (streamTx 180).ssRegister.vch, nReadPos := 3 }
    180 { vch := (streamTx 180).ssRegister.vch, nReadPos := 4 }
    (by decide) (by decide) (by decide) (by decide) (by decide)).1 (by decide)

/-- Without `WRITE` the register database is never written. -/
theorem Debit_regDB_of_not_WRITE (ops : StateOps)
    (hashFrom hashTo nAmount hashCaller nFlags : Nat) (tx : Transaction) (db : RegisterDB)
    (hnw : hasFlag nFlags FLAGS.WRITE = false) :
    (Debit ops hashFrom hashTo nAmount hashCaller nFlags tx db).regDB = db := by
  generalize hr : Debit ops hashFrom hashTo nAmount hashCaller nFlags tx db = r
  unfold Debit at hr
  simp only [hnw, Bool.false_eq_true, if_false] at hr
  repeat' split at hr
  all_goals subst hr
  all_goals rfl

/-- C6, as stated, fails: with `WRITE` and `MEMPOOL` both set the post-state is committed. -/
theorem Debit_mempool_with_write_commits :
    hasFlag (FLAGS.WRITE ||| FLAGS.MEMPOOL) FLAGS.MEMPOOL = true ∧
    (Debit scenarioOps 1 2 30 10 (FLAGS.WRITE ||| FLAGS.MEMPOOL) (streamTx 179)
      scenarioDB).regDB.ReadState 1 ≠ scenarioDB.ReadState 1 := by
  decide

/-- C6 (mempool non-effect), amended: for every input in which the `MEMPOOL` bit is set
and the `WRITE` bit is not, `Debit` leaves the register database as it was, whatever it
returns. -/
theorem Debit_mempool_no_write (ops : StateOps)
    (hashFrom hashTo nAmount hashCaller nFlags : Nat) (tx : Transaction) (db : RegisterDB)
    (_hmem : hasFlag nFlags FLAGS.MEMPOOL = true) (hnw : hasFlag nFlags FLAGS.WRITE = false) :
    (Debit ops hashFrom hashTo nAmount hashCaller nFlags tx db).regDB = db :=
  Debit_regDB_of_not_WRITE ops hashFrom hashTo nAmount hashCaller nFlags tx db hnw

/-- Witness of C6: a successful verification under `MEMPOOL` alone. -/
theorem Debit_mempool_no_write_witness :
    (Debit scenarioOps 1 2 30 10 FLAGS.MEMPOOL (streamTx 179) scenarioDB).out =
      Outcome.ret true ∧
    (Debit scenarioOps 1 2 30 10 FLAGS.MEMPOOL (streamTx 179) scenarioDB).regDB = scenarioDB :=
  ⟨by decide,
    Debit_mempool_no_write scenarioOps 1 2 30 10 FLAGS.MEMPOOL (streamTx 179) scenarioDB
      (by decide) (by decide)⟩

/-- C7, as stated, fails: under `WRITE` the caller `10` replaces the register that the
store holds for owner `11`, because the pre-state is taken from the stream. -/
theorem Debit_overwrites_foreign_register :
    (foreignDB.ReadState 1).map State.hashOwner = some 11 ∧
    (Debit scenarioOps 1 2 30 10 FLAGS.WRITE (streamTx 179) foreignDB).out = Outcome.ret true ∧
    (Debit scenarioOps 1 2 30 10 FLAGS.WRITE (streamTx 179) foreignDB).regDB.ReadState 1 ≠
      foreignDB.ReadState 1 ∧
    ((Debit scenarioOps 1 2 30 10 FLAGS.WRITE (streamTx 179) foreignDB).regDB.ReadState 1).bind
      State.readAccount = some { nBalance := 70, hashToken := 0, nStake := 0 } := by
  decide

/-- C7 (owner-authorised transitions), amended: whenever `Debit` changes the state stored
at `hashFrom`, the call has `WRITE` set and returns `true`, the caller is the owner of the
working pre-state (under `WRITE` the one popped from the stream), and the committed state
has that owner and decodes to the account of that pre-state with its balance reduced by
`nAmount`. -/
theorem Debit_transition_authorized (ops : StateOps)
    (hashFrom hashTo nAmount hashCaller nFlags : Nat) (tx : Transaction) (db : RegisterDB)
    (hchg : (Debit ops hashFrom hashTo nAmount hashCaller nFlags tx db).regDB.ReadState hashFrom ≠
      db.ReadState hashFrom) :
    hasFlag nFlags FLAGS.WRITE = true ∧
    (Debit ops hashFrom hashTo nAmount hashCaller nFlags tx db).out = Outcome.ret true ∧
    (Prestate hashFrom nFlags tx db).2.1.hashOwner = hashCaller ∧
    ∃ account post,
      (Prestate hashFrom nFlags tx db).2.1.readAccount = some account ∧
      nAmount ≤ account.nBalance ∧
      (Debit ops hashFrom hashTo nAmount hashCaller nFlags tx db).regDB.ReadState hashFrom =
        some post ∧
      post.hashOwner = hashCaller ∧
      post.readAccount = some { account with nBalance := account.nBalance - nAmount } := by
  have hne : (Debit ops hashFrom hashTo nAmount hashCaller nFlags tx db).regDB ≠ db := by
    intro h
    rw [h] at hchg
    exact hchg rfl
  have hwrite : hasFlag nFlags FLAGS.WRITE = true := by
    by_contra hnw
    exact hne (Debit_regDB_of_not_WRITE _ _ _ _ _ _ _ _ (by simpa using hnw))
  have hok : (Debit ops hashFrom hashTo nAmount hashCaller nFlags tx db).out = Outcome.ret true := by
    by_contra hno
    exact hne (Debit_regDB_of_not_ok _ _ _ _ _ _ _ _ hno)
  obtain ⟨pre, tx1, account, hP, hown, -, hacc, hle, -, -, hrest⟩ :=
    Debit_ok_inv ops hashFrom hashTo nAmount hashCaller nFlags tx db hok
  refine ⟨hwrite, hok, by rw [hP]; exact hown, account,
    Poststate pre account nAmount tx1.nTimestamp, by rw [hP]; exact hacc, hle, ?_, ?_, ?_⟩
  · rcases hrest with ⟨-, -, hdb⟩ | ⟨-, _, _, _, -, -, -, -, hdb⟩
    · exact absurd hdb hne
    · rcases hdb with ⟨-, hw⟩ | ⟨-, hdb⟩
      · exact (WriteState_true _ _ _ _ hw).2
      · exact absurd hdb hne
  · rw [(Poststate_fields pre account nAmount tx1.nTimestamp).1]; exact hown
  · exact Poststate_readAccount pre account nAmount _ hacc hle

/-- Witness of C7: the scenario committed under `WRITE`. -/
theorem Debit_transition_authorized_witness :
    hasFlag FLAGS.WRITE FLAGS.WRITE = true ∧
    (Debit scenarioOps 1 2 30 10 FLAGS.WRITE (streamTx 179) scenarioDB).out = Outcome.ret true ∧
    (Prestate 1 FLAGS.WRITE (streamTx 179) scenarioDB).2.1.hashOwner = 10 ∧
    ∃ account post,
      (Prestate 1 FLAGS.WRITE (streamTx 179) scenarioDB).2.1.readAccount = some account ∧
      30 ≤ account.nBalance ∧
      (Debit scenarioOps 1 2 30 10 FLAGS.WRITE (streamTx 179) scenarioDB).regDB.ReadState 1 =
        some post ∧
      post.hashOwner = 10 ∧
      post.readAccount = some { account with nBalance := account.nBalance - 30 } :=
  Debit_transition_authorized scenarioOps 1 2 30 10 FLAGS.WRITE (streamTx 179) scenarioDB
    (by decide)

/-- Without `PRESTATE`, two calls that differ only in the store go through the same blocks:
same local state, same transaction, and the same outcome unless the flags include `WRITE`
and the two stores disagree on the write. -/
theorem Debit_two_stores (ops : StateOps)
    (hashFrom hashTo nAmount hashCaller nFlags : Nat) (tx : Transaction)
    (db1 db2 : RegisterDB) (hnp : hasFlag nFlags FLAGS.PRESTATE = false) :
    (Debit ops hashFrom hashTo nAmount hashCaller nFlags tx db1).state =
      (Debit ops hashFrom hashTo nAmount hashCaller nFlags tx db2).state ∧
    (Debit ops hashFrom hashTo nAmount hashCaller nFlags tx db1).tx =
      (Debit ops hashFrom hashTo nAmount hashCaller nFlags tx db2).tx ∧
    ((hasFlag nFlags FLAGS.WRITE = false ∨
      (db1.WriteState hashFrom
        (Debit ops hashFrom hashTo nAmount hashCaller nFlags tx db1).state).1 =
      (db2.WriteState hashFrom
        (Debit ops hashFrom hashTo nAmount hashCaller nFlags tx db2).state).1) →
      (Debit ops hashFrom hashTo nAmount hashCaller nFlags tx db1).out =
        (Debit ops hashFrom hashTo nAmount hashCaller nFlags tx db2).out) := by
  unfold Debit
  rw [Prestate_of_not_PRESTATE hashFrom nFlags tx db1 hnp,
    Prestate_of_not_PRESTATE hashFrom nFlags tx db2 hnp]
  dsimp only
  repeat' split
  all_goals simp_all

/-- C8, as stated, fails: under `WRITE` alone the return value follows the store, which may
refuse the write. -/
theorem Debit_return_depends_on_store :
    (Debit scenarioOps 1 2 30 10 FLAGS.WRITE (streamTx 179) scenarioDB).out = Outcome.ret true ∧
    (Debit scenarioOps 1 2 30 10 FLAGS.WRITE (streamTx 179) refusingDB).out =
      Outcome.ret false := by
  decide

/-- C8 (determinism independent of the store), amended: two calls with only `WRITE` or only
`MEMPOOL` set, on the same stream, address, amount, caller and timestamp but against
arbitrary stores, end with the same post-state, the same consumed stream and the same
checksum; their return values are equal under `MEMPOOL`, and under `WRITE` whenever the two
stores agree on whether the write of the post-state succeeds. -/
theorem Debit_store_independent (ops : StateOps)
    (hashFrom hashTo nAmount hashCaller nFlags : Nat) (tx : Transaction)
    (db1 db2 : RegisterDB) (hflags : nFlags = FLAGS.WRITE ∨ nFlags = FLAGS.MEMPOOL) :
    (Debit ops hashFrom hashTo nAmount hashCaller nFlags tx db1).state =
      (Debit ops hashFrom hashTo nAmount hashCaller nFlags tx db2).state ∧
    (Debit ops hashFrom hashTo nAmount hashCaller nFlags tx db1).tx =
      (Debit ops hashFrom hashTo nAmount hashCaller nFlags tx db2).tx ∧
    ops.hash64 (Debit ops hashFrom hashTo nAmount hashCaller nFlags tx db1).state =
      ops.hash64 (Debit ops hashFrom hashTo nAmount hashCaller nFlags tx db2).state ∧
    ((nFlags = FLAGS.MEMPOOL ∨
      (db1.WriteState hashFrom
        (Debit ops hashFrom hashTo nAmount hashCaller nFlags tx db1).state).1 =
      (db2.WriteState hashFrom
        (Debit ops hashFrom hashTo nAmount hashCaller nFlags tx db2).state).1) →
      (Debit ops hashFrom hashTo nAmount hashCaller nFlags tx db1).out =
        (Debit ops hashFrom hashTo nAmount hashCaller nFlags tx db2).out) := by
  have hnp : hasFlag nFlags FLAGS.PRESTATE = false := by
    rcases hflags with h | h <;> subst h <;> decide
  obtain ⟨h1, h2, h3⟩ := Debit_two_stores ops hashFrom hashTo nAmount hashCaller nFlags tx db1 db2 hnp
  refine ⟨h1, h2, by rw [h1], ?_⟩
  intro h
  apply h3
  rcases h with h | h
  · left; subst h; decide
  · right; exact h

/-- Witness of C8: the scenario verified under `MEMPOOL` against two different stores. -/
theorem Debit_store_independent_witness :
    (Debit scenarioOps 1 2 30 10 FLAGS.MEMPOOL (streamTx 179) scenarioDB).out =
      (Debit scenarioOps 1 2 30 10 FLAGS.MEMPOOL (streamTx 179) foreignDB).out :=
  (Debit_store_independent scenarioOps 1 2 30 10 FLAGS.MEMPOOL (streamTx 179) scenarioDB
    foreignDB (Or.inr rfl)).2.2.2 (Or.inl rfl)

/-- C9 (commit): after a call with `WRITE` set that returns `true`, the store holds at
`hashFrom` a state with the owner and the type of the working pre-state, the timestamp of
the transaction, and a payload that decodes to the account of the pre-state with its
balance reduced by `nAmount`. -/
theorem Debit_commit (ops : StateOps)
    (hashFrom hashTo nAmount hashCaller nFlags : Nat) (tx : Transaction) (db : RegisterDB)
    (hwrite : hasFlag nFlags FLAGS.WRITE = true)
    (hok : (Debit ops hashFrom hashTo nAmount hashCaller nFlags tx db).out = Outcome.ret true) :
    ∃ account post,
      (Prestate hashFrom nFlags tx db).2.1.readAccount = some account ∧
      (Debit ops hashFrom hashTo nAmount hashCaller nFlags tx db).regDB.ReadState hashFrom =
        some post ∧
      post.hashOwner = (Prestate hashFrom nFlags tx db).2.1.hashOwner ∧
      post.nType = (Prestate hashFrom nFlags tx db).2.1.nType ∧
      post.nTimestamp = tx.nTimestamp ∧
      post.readAccount = some { account with nBalance := account.nBalance - nAmount } := by
  obtain ⟨pre, tx1, account, hP, -, -, hacc, hle, -, -, hrest⟩ :=
    Debit_ok_inv ops hashFrom hashTo nAmount hashCaller nFlags tx db hok
  have hts : tx1.nTimestamp = tx.nTimestamp := by
    have h := Prestate_nTimestamp hashFrom nFlags tx db
    rw [hP] at h
    exact h
  obtain ⟨ho, ht, hn⟩ := Poststate_fields pre account nAmount tx1.nTimestamp
  refine ⟨account, Poststate pre account nAmount tx1.nTimestamp, by rw [hP]; exact hacc, ?_,
    by rw [hP]; exact ho, by rw [hP]; exact ht, by rw [hn, hts],
    Poststate_readAccount pre account nAmount _ hacc hle⟩
  rcases hrest with ⟨hflag, -, -⟩ | ⟨-, _, _, _, -, -, -, -, hdb⟩
  · simp [hwrite] at hflag
  · rcases hdb with ⟨-, hw⟩ | ⟨hnw, -⟩
    · exact (WriteState_true _ _ _ _ hw).2
    · rw [hwrite] at hnw; cases hnw

/-- Witness of C9: owner `10`, an account, balance `100`, amount `30`: the store then holds
owner `10`, an account, balance `70`, timestamp `99`. -/
theorem Debit_commit_witness :
    ∃ account post,
      (Prestate 1 FLAGS.WRITE (streamTx 179) scenarioDB).2.1.readAccount = some account ∧
      (Debit scenarioOps 1 2 30 10 FLAGS.WRITE (streamTx 179) scenarioDB).regDB.ReadState 1 =
        some post ∧
      post.hashOwner = (Prestate 1 FLAGS.WRITE (streamTx 179) scenarioDB).2.1.hashOwner ∧
      post.nType = (Prestate 1 FLAGS.WRITE (streamTx 179) scenarioDB).2.1.nType ∧
      post.nTimestamp = (streamTx 179).nTimestamp ∧
      post.readAccount = some { account with nBalance := account.nBalance - 30 } :=
  Debit_commit scenarioOps 1 2 30 10 FLAGS.WRITE (streamTx 179) scenarioDB
    (by decide) (by decide)

/-- C10 (no partial commit): for every flag set and every input, a call that does not
return `true` (it returns `false`, or a stream read fails) leaves the register database
identical to the one before the call; the store is written only by the last step of a call
that returns `true`. -/
theorem Debit_failure_keeps_store (ops : StateOps)
    (hashFrom hashTo nAmount hashCaller nFlags : Nat) (tx : Transaction) (db : RegisterDB)
    (h : (Debit ops hashFrom hashTo nAmount hashCaller nFlags tx db).out ≠ Outcome.ret true) :
    (Debit ops hashFrom hashTo nAmount hashCaller nFlags tx db).regDB = db :=
  Debit_regDB_of_not_ok ops hashFrom hashTo nAmount hashCaller nFlags tx db h

/-- Witness of C10: a verified debit whose store write fails returns `false` and leaves the
store as it was. -/
theorem Debit_failure_keeps_store_witness :
    (Debit scenarioOps 1 2 30 10 FLAGS.WRITE (streamTx 179) refusingDB).out =
      Outcome.ret false ∧
    (Debit scenarioOps 1 2 30 10 FLAGS.WRITE (streamTx 179) refusingDB).regDB = refusingDB :=
  ⟨by decide,
    Debit_failure_keeps_store scenarioOps 1 2 30 10 FLAGS.WRITE (streamTx 179) refusingDB
      (by decide)⟩

/-! ## The stream of the transaction -/

/-- The first two blocks are the pre-state block followed by the pop of the pre-state. -/
theorem Prestate_eq_WritePrestate (hashFrom nFlags : Nat) (tx : Transaction) (db : RegisterDB) :
    Prestate hashFrom nFlags tx db =
      match WritePrestate hashFrom nFlags tx db with
      | none => (Step.fail, State.null, tx)
      | some (state, tx0) => PopPrestate nFlags state tx0 := by
  unfold Prestate WritePrestate
  by_cases hf : hasFlag nFlags FLAGS.PRESTATE = true
  · simp only [hf, if_true]
    cases db.ReadState hashFrom <;> rfl
  · have hf2 : hasFlag nFlags FLAGS.PRESTATE = false := by simpa using hf
    simp only [hf2, Bool.false_eq_true, if_false]

/-- Without `WRITE` and `MEMPOOL` nothing is popped. -/
theorem PopPrestate_of_not_validator (nFlags : Nat) (state : State) (tx : Transaction)
    (h : (hasFlag nFlags FLAGS.WRITE || hasFlag nFlags FLAGS.MEMPOOL) = false) :
    PopPrestate nFlags state tx = (Step.next, state, tx) := by
  unfold PopPrestate
  simp [h]

/-- With `PRESTATE` set and no state at `hashFrom`, the call ends at once. -/
theorem Debit_of_missing_register (ops : StateOps)
    (hashFrom hashTo nAmount hashCaller nFlags : Nat) (tx : Transaction) (db : RegisterDB)
    (hflag : hasFlag nFlags FLAGS.PRESTATE = true) (hnone : db.ReadState hashFrom = none) :
    Debit ops hashFrom hashTo nAmount hashCaller nFlags tx db =
      { out := Outcome.ret false, state := State.null, tx := tx, regDB := db } := by
  have hP : Prestate hashFrom nFlags tx db = (Step.fail, State.null, tx) := by
    unfold Prestate
    simp [hflag, hnone]
  unfold Debit
  rw [hP]

/-- C11 (builder stream format): a call with flags exactly `PRESTATE|POSTSTATE` that returns
`true` leaves the stream of the transaction as the stream before the call followed by four
items, in this order: the `PRESTATE` marker, the state read from the store at `hashFrom`,
the `POSTSTATE` marker and the hash of the post-state; the read position is unchanged and
the register database is not written. -/
theorem Debit_builder_stream (ops : StateOps)
    (hashFrom hashTo nAmount hashCaller : Nat) (tx : Transaction) (db : RegisterDB)
    (hok : (Debit ops hashFrom hashTo nAmount hashCaller (FLAGS.PRESTATE ||| FLAGS.POSTSTATE)
      tx db).out = Outcome.ret true) :
    ∃ pre account,
      db.ReadState hashFrom = some pre ∧ pre.readAccount = some account ∧
      (Debit ops hashFrom hashTo nAmount hashCaller (FLAGS.PRESTATE ||| FLAGS.POSTSTATE)
        tx db).state = Poststate pre account nAmount tx.nTimestamp ∧
      (Debit ops hashFrom hashTo nAmount hashCaller (FLAGS.PRESTATE ||| FLAGS.POSTSTATE)
        tx db).tx.ssRegister.vch =
          tx.ssRegister.vch ++
            [Item.u8 STATES.PRESTATE, Item.state pre, Item.u8 STATES.POSTSTATE,
              Item.u64 (ops.hash64 (Poststate pre account nAmount tx.nTimestamp))] ∧
      (Debit ops hashFrom hashTo nAmount hashCaller (FLAGS.PRESTATE ||| FLAGS.POSTSTATE)
        tx db).tx.ssRegister.nReadPos = tx.ssRegister.nReadPos ∧
      (Debit ops hashFrom hashTo nAmount hashCaller (FLAGS.PRESTATE ||| FLAGS.POSTSTATE)
        tx db).regDB = db := by
  have f1 : hasFlag (FLAGS.PRESTATE ||| FLAGS.POSTSTATE) FLAGS.PRESTATE = true := by decide
  have f2 : hasFlag (FLAGS.PRESTATE ||| FLAGS.POSTSTATE) FLAGS.POSTSTATE = true := by decide
  have f3 : (hasFlag (FLAGS.PRESTATE ||| FLAGS.POSTSTATE) FLAGS.WRITE ||
      hasFlag (FLAGS.PRESTATE ||| FLAGS.POSTSTATE) FLAGS.MEMPOOL) = false := by decide
  obtain ⟨pre, tx1, account, hP, -, -, hacc, -, -, hstate, hrest⟩ :=
    Debit_ok_inv _ _ _ _ _ _ _ _ hok
  rcases hrest with ⟨-, htx, hdb⟩ | ⟨hflag, -⟩
  swap
  · rw [f3] at hflag; cases hflag
  rw [Prestate_eq_WritePrestate] at hP
  unfold WritePrestate at hP
  rw [f1] at hP
  simp only [if_true] at hP
  cases hread : db.ReadState hashFrom with
  | none => rw [hread] at hP; simp at hP
  | some s =>
    rw [hread] at hP
    simp only [PopPrestate_of_not_validator _ _ _ f3] at hP
    injection hP with _ hP
    injection hP with h1 h2
    subst h1
    subst h2
    refine ⟨s, account, rfl, hacc, hstate, ?_, ?_, hdb⟩
    · rw [htx]
      simp [WritePoststate, f2, DataStream.writeU8, DataStream.writeU64, DataStream.writeState,
        StateOps.hash64, STATES.PRESTATE, STATES.POSTSTATE]
    · rw [htx]
      simp [WritePoststate, f2, DataStream.writeU8, DataStream.writeU64, DataStream.writeState]

/-- Witness of C11: the builder call of the scenario on an empty stream. -/
theorem Debit_builder_stream_witness :
    ∃ pre account,
      scenarioDB.ReadState 1 = some pre ∧ pre.readAccount = some account ∧
      (Debit scenarioOps 1 2 30 10 (FLAGS.PRESTATE ||| FLAGS.POSTSTATE)
        emptyTx scenarioDB).state = Poststate pre account 30 emptyTx.nTimestamp ∧
      (Debit scenarioOps 1 2 30 10 (FLAGS.PRESTATE ||| FLAGS.POSTSTATE)
        emptyTx scenarioDB).tx.ssRegister.vch =
          emptyTx.ssRegister.vch ++
            [Item.u8 STATES.PRESTATE, Item.state pre, Item.u8 STATES.POSTSTATE,
              Item.u64 (scenarioOps.hash64 (Poststate pre account 30 emptyTx.nTimestamp))] ∧
      (Debit scenarioOps 1 2 30 10 (FLAGS.PRESTATE ||| FLAGS.POSTSTATE)
        emptyTx scenarioDB).tx.ssRegister.nReadPos = emptyTx.ssRegister.nReadPos ∧
      (Debit scenarioOps 1 2 30 10 (FLAGS.PRESTATE ||| FLAGS.POSTSTATE)
        emptyTx scenarioDB).regDB = scenarioDB :=
  Debit_builder_stream scenarioOps 1 2 30 10 emptyTx scenarioDB (by decide)

/-- C13 (register not found): with `PRESTATE` set, when the store holds no state at
`hashFrom`, `Debit` returns `false`, the transaction is unchanged (nothing is appended to
its stream) and the register database is unchanged. -/
theorem Debit_register_not_found (ops : StateOps)
    (hashFrom hashTo nAmount hashCaller nFlags : Nat) (tx : Transaction) (db : RegisterDB)
    (hflag : hasFlag nFlags FLAGS.PRESTATE = true) (hnone : db.ReadState hashFrom = none) :
    (Debit ops hashFrom hashTo nAmount hashCaller nFlags tx db).out = Outcome.ret false ∧
    (Debit ops hashFrom hashTo nAmount hashCaller nFlags tx db).tx = tx ∧
    (Debit ops hashFrom hashTo nAmount hashCaller nFlags tx db).regDB = db := by
  rw [Debit_of_missing_register ops hashFrom hashTo nAmount hashCaller nFlags tx db hflag hnone]
  exact ⟨rfl, rfl, rfl⟩

/-- Witness of C13: the scenario store holds nothing at address `2`. -/
theorem Debit_register_not_found_witness :
    (Debit scenarioOps 2 1 30 10 (FLAGS.PRESTATE ||| FLAGS.POSTSTATE) emptyTx scenarioDB).out =
      Outcome.ret false ∧
    (Debit scenarioOps 2 1 30 10 (FLAGS.PRESTATE ||| FLAGS.POSTSTATE) emptyTx scenarioDB).tx =
      emptyTx ∧
    (Debit scenarioOps 2 1 30 10 (FLAGS.PRESTATE ||| FLAGS.POSTSTATE) emptyTx
      scenarioDB).regDB = scenarioDB :=
  Debit_register_not_found scenarioOps 2 1 30 10 (FLAGS.PRESTATE ||| FLAGS.POSTSTATE) emptyTx
    scenarioDB (by decide) (by decide)

end Operation

end TAO

/-! ## The integer power: the claim -/

namespace math

/-- Invariant of the loop of `pow`: from counter `n` and accumulator `nRet`, with enough
fuel, the loop ends with `nRet * nBase ^ (nExp - n)` reduced modulo `2 ^ 64`. -/
theorem powLoop_eq (nBase nExp : Nat) (hexp : nExp < 2 ^ 32) :
    ∀ (fuel n nRet : Nat), n ≤ nExp → nExp - n < fuel → nRet < 2 ^ 64 →
      powLoop fuel nBase nExp n nRet = some (nRet * nBase ^ (nExp - n) % 2 ^ 64) := by
  intro fuel
  induction fuel with
  | zero => intro n nRet _ h; omega
  | succ fuel ih =>
    intro n nRet hn hfuel hret
    unfold powLoop
    by_cases hlt : n < nExp
    · rw [if_pos hlt]
      have hmod : (n + 1) % 2 ^ 32 = n + 1 := Nat.mod_eq_of_lt (by omega)
      rw [hmod, ih (n + 1) (nRet * nBase % 2 ^ 64) (by omega) (by omega)
        (Nat.mod_lt _ (by norm_num))]
      have hsub : nExp - n = (nExp - (n + 1)) + 1 := by omega
      rw [hsub, pow_succ, Nat.mod_mul_mod]
      congr 2
      ring
    · rw [if_neg hlt]
      have hsub : nExp - n = 0 := by omega
      rw [hsub, pow_zero, mul_one, Nat.mod_eq_of_lt hret]

/-- C14: for every `nBase` and every `nExp` below `2 ^ 32`, `pow` returns (with fuel for
more than `nExp` iterations) `nBase ^ nExp` reduced modulo `2 ^ 64`, hence exactly
`nBase ^ nExp` when that value fits in 64 bits, and `pow(nBase, 0) = 1`. -/
theorem pow_spec (fuel nBase nExp : Nat) (hexp : nExp < 2 ^ 32) (hfuel : nExp < fuel) :
    pow fuel nBase nExp = some (nBase ^ nExp % 2 ^ 64) ∧
    (nBase ^ nExp < 2 ^ 64 → pow fuel nBase nExp = some (nBase ^ nExp)) ∧
    pow fuel nBase 0 = some 1 := by
  have h1 : pow fuel nBase nExp = some (nBase ^ nExp % 2 ^ 64) := by
    unfold pow
    rw [powLoop_eq nBase nExp hexp fuel 0 1 (Nat.zero_le _) (by omega) (by norm_num)]
    simp
  refine ⟨h1, ?_, ?_⟩
  · intro hfit
    rw [h1, Nat.mod_eq_of_lt hfit]
  · unfold pow
    rw [powLoop_eq nBase 0 (by norm_num) fuel 0 1 (le_refl _) (by omega) (by norm_num)]
    simp

/-- Witness of C14: `pow(10, 8)`, the divisor used for a token with eight decimals. -/
theorem pow_spec_witness :
    pow 9 10 8 = some (10 ^ 8 % 2 ^ 64) ∧
    (10 ^ 8 < 2 ^ 64 → pow 9 10 8 = some (10 ^ 8)) ∧
    pow 9 10 0 = some 1 :=
  pow_spec 9 10 8 (by norm_num) (by norm_num)

end math

/-! ## The key pool: auxiliary facts and claims -/

namespace Legacy

/-- What one accepted write of a freshly generated key does to the pool. -/
theorem WritePool_some (p : CKeyPool) (i : Nat) (e : CKeyPoolEntry) (p2 : CKeyPool)
    (h : WritePool p i e = some p2) :
    p2 = { p with mapPool := fun j => if j = i then some e else p.mapPool j } := by
  unfold WritePool at h
  split at h
  · cases h; rfl
  · cases h

/-- When the database accepts every write, `WritePool` succeeds. -/
theorem WritePool_of_accept (p : CKeyPool) (i : Nat) (e : CKeyPoolEntry)
    (h : p.fnAccept i e = true) : ∃ p2, WritePool p i e = some p2 := by
  unfold WritePool
  rw [if_pos h]
  exact ⟨_, rfl⟩

/-- The loop of `TopUpKeyPool` never removes an index, and with at least one iteration it
leaves the set non-empty. -/
theorem TopUpLoop_mono (env : Env) :
    ∀ (n idx : Nat) (p p2 : CKeyPool), TopUpLoop env n idx p = Res.ok () p2 →
      p.setKeyPool ⊆ p2.setKeyPool ∧ (0 < n → p2.setKeyPool.Nonempty) ∧ (n = 0 → p2 = p) := by
  intro n
  induction n with
  | zero =>
    intro idx p p2 h
    unfold TopUpLoop at h
    cases h
    exact ⟨Finset.Subset.refl _, fun h => absurd h (lt_irrefl _), fun _ => rfl⟩
  | succ n ih =>
    intro idx p p2 h
    unfold TopUpLoop at h
    simp only [GenerateNewKey] at h
    split at h
    · cases h
    · rename_i p3 hw
      have hp3 := WritePool_some _ _ _ _ hw
      subst hp3
      obtain ⟨h1, -, -⟩ := ih _ _ _ h
      have hsub : p.setKeyPool ⊆ p2.setKeyPool :=
        Finset.Subset.trans (Finset.subset_insert _ _) h1
      refine ⟨hsub, fun _ => ?_, fun h0 => by omega⟩
      exact ⟨_, h1 (Finset.mem_insert_self _ _)⟩

/-- The loop of `TopUpKeyPool` without overflow of the index: it adds the indices
`idx + 1, ..., idx + n`, generates `n` keys and writes their entries; nothing else
changes. -/
theorem TopUpLoop_ok (env : Env) :
    ∀ (n idx : Nat) (p p2 : CKeyPool), idx + n < 2 ^ 64 →
      TopUpLoop env n idx p = Res.ok () p2 →
      p2.setKeyPool = p.setKeyPool ∪ Finset.Ioc idx (idx + n) ∧
      p2.fFileBacked = p.fFileBacked ∧ p2.fLocked = p.fLocked ∧ p2.fnAccept = p.fnAccept ∧
      p2.vKeys.length = p.vKeys.length + n ∧
      (∀ j, j < p.vKeys.length → p2.vKeys[j]? = p.vKeys[j]?) ∧
      (∀ i, i ∉ Finset.Ioc idx (idx + n) → p2.mapPool i = p.mapPool i) ∧
      (∀ i, i ∈ Finset.Ioc idx (idx + n) →
        ∃ k, p2.mapPool i = some { nTime := env.nUnifiedTime, vchPubKey := k } ∧
          p2.vKeys[p.vKeys.length + (i - idx - 1)]? = some k) := by
  intro n
  induction n with
  | zero =>
    intro idx p p2 _ h
    unfold TopUpLoop at h
    cases h
    simp
  | succ n ih =>
    intro idx p p2 hlt h
    unfold TopUpLoop at h
    simp only [GenerateNewKey] at h
    have hmod : (idx + 1) % 2 ^ 64 = idx + 1 := Nat.mod_eq_of_lt (by omega)
    rw [hmod] at h
    split at h
    · cases h
    · rename_i p3 hw
      have hp3 := WritePool_some _ _ _ _ hw
      subst hp3
      obtain ⟨h1, h2, h3, h4, h5, h6, h7, h8⟩ := ih (idx + 1) _ _ (by omega) h
      simp only [List.length_append, List.length_singleton] at h5 h6 h8
      refine ⟨?_, h2, h3, h4, by omega, ?_, ?_, ?_⟩
      · rw [h1]
        ext x
        simp only [Finset.mem_union, Finset.mem_insert, Finset.mem_Ioc]
        constructor
        · rintro ((h | h) | h)
          · right; omega
          · left; exact h
          · right; omega
        · rintro (h | h)
          · left; right; exact h
          · by_cases hx : x = idx + 1
            · left; left; exact hx
            · right; omega
      · intro j hj
        rw [h6 j (by omega)]
        exact List.getElem?_append_left hj
      · intro i hi
        simp only [Finset.mem_Ioc, not_and, not_le] at hi
        have hi2 : i ∉ Finset.Ioc (idx + 1) (idx + 1 + n) := by
          simp only [Finset.mem_Ioc, not_and, not_le]
          intro h; omega
        rw [h7 i hi2]
        have hne : i ≠ idx + 1 := by
          intro h
          have := hi (by omega)
          omega
        simp [hne]
      · intro i hi
        simp only [Finset.mem_Ioc] at hi
        by_cases hx : i = idx + 1
        · subst hx
          have hi2 : idx + 1 ∉ Finset.Ioc (idx + 1) (idx + 1 + n) := by simp
          refine ⟨env.fnNewKey p.vKeys.length, ?_, ?_⟩
          · rw [h7 _ hi2]
            simp
          · have h0 : p.vKeys.length + (idx + 1 - idx - 1) = p.vKeys.length := by omega
            rw [h0, h6 _ (by omega)]
            simp
        · have hi2 : i ∈ Finset.Ioc (idx + 1) (idx + 1 + n) := by
            simp only [Finset.mem_Ioc]; omega
          obtain ⟨k, hk1, hk2⟩ := h8 i hi2
          refine ⟨k, hk1, ?_⟩
          have h0 : p.vKeys.length + (i - idx - 1) = p.vKeys.length + 1 + (i - (idx + 1) - 1) := by
            omega
          rw [h0]
          exact hk2

/-- When the database accepts every write, the loop of `TopUpKeyPool` does not throw. -/
theorem TopUpLoop_returns (env : Env) :
    ∀ (n idx : Nat) (p : CKeyPool), (∀ i e, p.fnAccept i e = true) →
      ∃ p2, TopUpLoop env n idx p = Res.ok () p2 := by
  intro n
  induction n with
  | zero => intro idx p _; exact ⟨p, rfl⟩
  | succ n ih =>
    intro idx p hacc
    unfold TopUpLoop
    simp only [GenerateNewKey]
    obtain ⟨p3, hw⟩ := WritePool_of_accept
      { p with vKeys := p.vKeys ++ [env.fnNewKey p.vKeys.length] }
      ((idx + 1) % 2 ^ 64)
      { nTime := env.nUnifiedTime, vchPubKey := env.fnNewKey p.vKeys.length } (hacc _ _)
    rw [hw]
    have hp3 := WritePool_some _ _ _ _ hw
    subst hp3
    exact ih _ _ hacc

/-- A pool equals itself with its own set written back. -/
theorem CKeyPool.eta_set (p : CKeyPool) (s : Finset Nat) (h : s = p.setKeyPool) :
    { p with setKeyPool := s } = p := by
  subst h
  cases p
  rfl

/-- Every index of the pool is at most the index `TopUpKeyPool` and `AddKey` start from. -/
theorem le_sup_of_mem (s : Finset Nat) (j : Nat) (h : j ∈ s) : j ≤ s.sup id :=
  Finset.le_sup (f := id) h

/-- On a file-backed pool that is full, or locked, `TopUpKeyPool` changes nothing. -/
theorem TopUpKeyPool_unchanged (env : Env) (p : CKeyPool) (hfile : p.fFileBacked = true) :
    (nTargetSize env ≤ p.setKeyPool.card → TopUpKeyPool env p = Res.ok true p) ∧
    (p.setKeyPool.card < nTargetSize env → p.fLocked = true →
      TopUpKeyPool env p = Res.ok false p) := by
  constructor
  · intro h
    unfold TopUpKeyPool
    simp [hfile, h]
  · intro h hl
    unfold TopUpKeyPool
    have h2 : ¬ nTargetSize env ≤ p.setKeyPool.card := by omega
    simp [hfile, h2, hl]

/-- On a file-backed, unlocked pool below its target, `TopUpKeyPool` is its loop. -/
theorem TopUpKeyPool_loop (env : Env) (p : CKeyPool) (hfile : p.fFileBacked = true)
    (hl : p.fLocked = false) (hlt : p.setKeyPool.card < nTargetSize env) :
    (∀ p2, TopUpLoop env (nTargetSize env - p.setKeyPool.card) (p.setKeyPool.sup id) p =
        Res.ok () p2 → TopUpKeyPool env p = Res.ok true p2) ∧
    (∀ p2, TopUpLoop env (nTargetSize env - p.setKeyPool.card) (p.setKeyPool.sup id) p =
        Res.threw p2 → TopUpKeyPool env p = Res.threw p2) := by
  have h2 : ¬ nTargetSize env ≤ p.setKeyPool.card := by omega
  constructor
  · intro p2 h
    unfold TopUpKeyPool
    simp [hfile, h2, hl, h]
  · intro p2 h
    unfold TopUpKeyPool
    simp [hfile, h2, hl, h]

/-- A top-up that leaves the pool empty has changed nothing. -/
theorem TopUpKeyPool_empty (env : Env) (p : CKeyPool) (b : Bool) (p1 : CKeyPool)
    (h : TopUpKeyPool env p = Res.ok b p1) (hempty : p1.setKeyPool = ∅) : p1 = p := by
  by_cases hfile : p.fFileBacked = true
  · by_cases hfull : nTargetSize env ≤ p.setKeyPool.card
    · rw [(TopUpKeyPool_unchanged env p hfile).1 hfull] at h
      cases h; rfl
    · have hlt : p.setKeyPool.card < nTargetSize env := by omega
      by_cases hl : p.fLocked = true
      · rw [(TopUpKeyPool_unchanged env p hfile).2 hlt hl] at h
        cases h; rfl
      · have hl2 : p.fLocked = false := by simpa using hl
        obtain ⟨hok, hthrow⟩ := TopUpKeyPool_loop env p hfile hl2 hlt
        cases hloop : TopUpLoop env (nTargetSize env - p.setKeyPool.card)
            (p.setKeyPool.sup id) p with
        | threw p2 =>
          rw [hthrow p2 hloop] at h
          cases h
        | ok u p2 =>
          cases u
          rw [hok p2 hloop] at h
          cases h
          obtain ⟨-, hne, -⟩ := TopUpLoop_mono env _ _ _ _ hloop
          have := hne (by omega)
          rw [hempty] at this
          exact absurd this (by simp)
  · unfold TopUpKeyPool at h
    rw [if_neg hfile] at h
    cases h; rfl

/-- The top-up that `ReserveKeyFromPool` makes on an unlocked wallet leaves the pool as
`TopUpKeyPool` alone leaves it, locked or not. -/
theorem optional_TopUp (env : Env) (p : CKeyPool) (b : Bool) (p1 : CKeyPool)
    (hfile : p.fFileBacked = true) (h : TopUpKeyPool env p = Res.ok b p1) :
    ∃ b2, (if !p.fLocked then TopUpKeyPool env p else Res.ok true p) = Res.ok b2 p1 := by
  by_cases hl : p.fLocked = true
  · have hp : p1 = p := by
      by_cases hfull : nTargetSize env ≤ p.setKeyPool.card
      · rw [(TopUpKeyPool_unchanged env p hfile).1 hfull] at h
        cases h; rfl
      · rw [(TopUpKeyPool_unchanged env p hfile).2 (by omega) hl] at h
        cases h; rfl
    subst hp
    exact ⟨true, by simp [hl]⟩
  · have hl2 : p.fLocked = false := by simpa using hl
    exact ⟨b, by simp [hl2, h]⟩

/-- The smallest index of a pool, as `std::set::begin` gives it. -/
theorem min_spec (s : Finset Nat) (si : Nat) (h : s.min = some si) :
    si ∈ s ∧ ∀ j ∈ s, si ≤ j :=
  ⟨Finset.mem_of_min h, fun _ hj => Finset.min_le_of_eq hj h⟩

/-- What `ReserveKeyFromPool` does once the optional top-up has left the pool `p1`. -/
theorem ReserveKeyFromPool_eq (env : Env) (p : CKeyPool) (keypoolEntry : CKeyPoolEntry)
    (b : Bool) (p1 : CKeyPool) (hfile : p.fFileBacked = true)
    (h : TopUpKeyPool env p = Res.ok b p1) :
    (∀ si e, p1.setKeyPool.min = some si → p1.mapPool si = some e →
      e.vchPubKey ∈ p1.vKeys → e.vchPubKey ≠ [] →
      ReserveKeyFromPool env p keypoolEntry =
        Res.ok (si, e) { p1 with setKeyPool := p1.setKeyPool.erase si }) ∧
    (p1.setKeyPool = ∅ →
      ReserveKeyFromPool env p keypoolEntry =
        Res.ok (2 ^ 64 - 1, { keypoolEntry with vchPubKey := [] }) p1) := by
  obtain ⟨b2, hopt⟩ := optional_TopUp env p b p1 hfile h
  constructor
  · intro si e hmin hentry hkey hne
    unfold ReserveKeyFromPool
    simp only [hfile, if_true, hopt, hmin, ReadPool, hentry, HaveKey]
    have hempty : e.vchPubKey.isEmpty = false := by
      cases hk : e.vchPubKey with
      | nil => exact absurd hk hne
      | cons a l => rfl
    simp [hkey, hempty]
  · intro hempty
    unfold ReserveKeyFromPool
    have hmin : p1.setKeyPool.min = none := by
      rw [hempty]; rfl
    simp only [hfile, if_true, hopt, hmin]

/-- The loop of `TopUpKeyPool` does not change whether the wallet is file-backed. -/
theorem TopUpLoop_fFileBacked (env : Env) :
    ∀ (n idx : Nat) (q q2 : CKeyPool),
      TopUpLoop env n idx q = Res.ok () q2 → q2.fFileBacked = q.fFileBacked := by
  intro n
  induction n with
  | zero => intro idx q q2 h; unfold TopUpLoop at h; cases h; rfl
  | succ n ih =>
    intro idx q q2 h
    unfold TopUpLoop at h
    simp only [GenerateNewKey] at h
    split at h
    · cases h
    · rename_i q3 hw
      have hq3 := WritePool_some _ _ _ _ hw
      subst hq3
      have h2 := ih _ _ _ h
      simpa using h2

/-- `TopUpKeyPool` does not change whether the wallet is file-backed. -/
theorem TopUpKeyPool_fFileBacked (env : Env) (p : CKeyPool) (b : Bool) (p1 : CKeyPool)
    (htop : TopUpKeyPool env p = Res.ok b p1) : p1.fFileBacked = p.fFileBacked := by
  by_cases hfile : p.fFileBacked = true
  · by_cases hfull : nTargetSize env ≤ p.setKeyPool.card
    · rw [(TopUpKeyPool_unchanged env p hfile).1 hfull] at htop
      cases htop; rfl
    · by_cases hl : p.fLocked = true
      · rw [(TopUpKeyPool_unchanged env p hfile).2 (by omega) hl] at htop
        cases htop; rfl
      · have hl2 : p.fLocked = false := by simpa using hl
        obtain ⟨hok, hthrow⟩ := TopUpKeyPool_loop env p hfile hl2 (by omega)
        cases hloop : TopUpLoop env (nTargetSize env - p.setKeyPool.card)
            (p.setKeyPool.sup id) p with
        | threw p2 =>
          rw [hthrow p2 hloop] at htop
          cases htop
        | ok u p2 =>
          cases u
          rw [hok p2 hloop] at htop
          cases htop
          exact TopUpLoop_fFileBacked env _ _ _ _ hloop
  · unfold TopUpKeyPool at htop
    rw [if_neg hfile] at htop
    cases htop; rfl

/-- Without overflow of the index the loop of `NewKeyPool` is the loop of `TopUpKeyPool`. -/
theorem NewKeyLoop_eq_TopUpLoop (env : Env) :
    ∀ (n i : Nat) (p : CKeyPool), i + n < 2 ^ 64 →
      NewKeyLoop env n i p = TopUpLoop env n i p := by
  intro n
  induction n with
  | zero => intro i p _; rfl
  | succ n ih =>
    intro i p hlt
    unfold NewKeyLoop TopUpLoop
    have hmod : (i + 1) % 2 ^ 64 = i + 1 := Nat.mod_eq_of_lt (by omega)
    simp only [hmod, GenerateNewKey]
    split
    · rfl
    · exact ih _ _ (by omega)

/-- On a file-backed, unlocked wallet `NewKeyPool` is its loop run on the emptied pool. -/
theorem NewKeyPool_loop (env : Env) (p : CKeyPool) (hfile : p.fFileBacked = true)
    (hl : p.fLocked = false) :
    (∀ p2, NewKeyLoop env (nTargetSize env) 0
        { p with mapPool := fun i => if i ∈ p.setKeyPool then none else p.mapPool i,
                 setKeyPool := ∅ } = Res.ok () p2 →
      NewKeyPool env p = Res.ok true p2) ∧
    (∀ p2, NewKeyLoop env (nTargetSize env) 0
        { p with mapPool := fun i => if i ∈ p.setKeyPool then none else p.mapPool i,
                 setKeyPool := ∅ } = Res.threw p2 →
      NewKeyPool env p = Res.threw p2) := by
  have hl2 : ¬ p.fLocked = true := by simp [hl]
  constructor
  · intro p2 h
    unfold NewKeyPool
    rw [if_pos hfile, if_neg hl2]
    dsimp only
    rw [h]
  · intro p2 h
    unfold NewKeyPool
    rw [if_pos hfile, if_neg hl2]
    dsimp only
    rw [h]

/-- Whether `ReserveKeyFromPool` returns or throws, once the optional top-up has left a
non-empty pool `p1` the call ends with the smallest index removed from the set and
everything else as in `p1`. -/
theorem ReserveKeyFromPool_pool (env : Env) (p : CKeyPool) (keypoolEntry : CKeyPoolEntry)
    (b : Bool) (p1 : CKeyPool) (si : Nat) (hfile : p.fFileBacked = true)
    (h : TopUpKeyPool env p = Res.ok b p1) (hmin : p1.setKeyPool.min = some si) :
    (ReserveKeyFromPool env p keypoolEntry).pool =
      { p1 with setKeyPool := p1.setKeyPool.erase si } := by
  obtain ⟨b2, hopt⟩ := optional_TopUp env p b p1 hfile h
  unfold ReserveKeyFromPool
  simp only [hfile, if_true, hopt, hmin]
  repeat' split
  all_goals rfl

/-- When the entry of the smallest index is not in the database, or the wallet does not hold
its key, `ReserveKeyFromPool` throws with the index already removed. -/
theorem ReserveKeyFromPool_throws (env : Env) (p : CKeyPool) (keypoolEntry : CKeyPoolEntry)
    (b : Bool) (p1 : CKeyPool) (si : Nat) (hfile : p.fFileBacked = true)
    (h : TopUpKeyPool env p = Res.ok b p1) (hmin : p1.setKeyPool.min = some si) :
    (p1.mapPool si = none →
      ReserveKeyFromPool env p keypoolEntry =
        Res.threw { p1 with setKeyPool := p1.setKeyPool.erase si }) ∧
    (∀ e, p1.mapPool si = some e → e.vchPubKey ∉ p1.vKeys →
      ReserveKeyFromPool env p keypoolEntry =
        Res.threw { p1 with setKeyPool := p1.setKeyPool.erase si }) := by
  obtain ⟨b2, hopt⟩ := optional_TopUp env p b p1 hfile h
  constructor
  · intro hentry
    unfold ReserveKeyFromPool
    simp only [hfile, if_true, hopt, hmin, ReadPool, hentry]
  · intro e hentry hbad
    unfold ReserveKeyFromPool
    simp only [hfile, if_true, hopt, hmin, ReadPool, hentry, HaveKey]
    simp [hbad]

/-- When the top-up throws, so does `ReserveKeyFromPool`, with the pool the top-up left. -/
theorem ReserveKeyFromPool_of_TopUp_threw (env : Env) (p : CKeyPool)
    (keypoolEntry : CKeyPoolEntry) (p2 : CKeyPool) (hfile : p.fFileBacked = true)
    (h : TopUpKeyPool env p = Res.threw p2) :
    ReserveKeyFromPool env p keypoolEntry = Res.threw p2 := by
  have hl : p.fLocked = false := by
    by_contra hl
    have hl2 : p.fLocked = true := by simpa using hl
    by_cases hfull : nTargetSize env ≤ p.setKeyPool.card
    · rw [(TopUpKeyPool_unchanged env p hfile).1 hfull] at h
      cases h
    · rw [(TopUpKeyPool_unchanged env p hfile).2 (by omega) hl2] at h
      cases h
  unfold ReserveKeyFromPool
  simp only [hfile, if_true, hl, Bool.not_false, h]

/-- C15, as stated, fails: on a file-backed wallet whose pool `{3, 5}` is not empty, when the
database has no entry for index `3`, or holds one whose key is not the wallet's, the call
returns no entry: it throws, with index `3` already removed from the set. -/
theorem ReserveKeyFromPool_missing_entry :
    orphanPool.fFileBacked = true ∧ orphanPool.setKeyPool = {3, 5} ∧
    (ReserveKeyFromPool poolEnv orphanPool { nTime := 0, vchPubKey := [] }).val? = none ∧
    (ReserveKeyFromPool poolEnv orphanPool { nTime := 0, vchPubKey := [] }).pool.setKeyPool =
      {5} ∧
    strangerPool.mapPool 3 = some { nTime := 7, vchPubKey := [30] } ∧
    (ReserveKeyFromPool poolEnv strangerPool { nTime := 0, vchPubKey := [] }).val? = none ∧
    (ReserveKeyFromPool poolEnv strangerPool { nTime := 0, vchPubKey := [] }).pool.setKeyPool =
      {5} := by
  decide

/-- C15 (`ReserveKeyFromPool` hands out the oldest key), amended.  On a file-backed wallet
whose pool `p1` after the optional top-up is not empty, the call takes the smallest index
`si`, removes `si` and nothing else from the set and leaves the wallet database and the keys
as they are, whether it returns or throws.  When the database holds the entry of `si` and
the wallet holds its key, which is not empty, the call returns index `si` and that entry;
when the entry is missing, or the wallet does not hold its key, the call throws with `si`
already removed.  When the wallet is not file-backed, or the pool is empty after the
top-up, it returns index `2 ^ 64 - 1` and the entry with its public key cleared, and the
pool is the one before the call.  When the top-up throws, the call throws with the pool the
top-up left. -/
theorem ReserveKeyFromPool_oldest (env : Env) (p : CKeyPool) (keypoolEntry : CKeyPoolEntry) :
    (∀ b p1 si, p.fFileBacked = true → TopUpKeyPool env p = Res.ok b p1 →
      p1.setKeyPool.min = some si →
      si ∈ p1.setKeyPool ∧ (∀ j ∈ p1.setKeyPool, si ≤ j) ∧
      (ReserveKeyFromPool env p keypoolEntry).pool.setKeyPool = p1.setKeyPool.erase si ∧
      (ReserveKeyFromPool env p keypoolEntry).pool.mapPool = p1.mapPool ∧
      (ReserveKeyFromPool env p keypoolEntry).pool.vKeys = p1.vKeys ∧
      (∀ e, p1.mapPool si = some e → e.vchPubKey ∈ p1.vKeys → e.vchPubKey ≠ [] →
        ReserveKeyFromPool env p keypoolEntry =
          Res.ok (si, e) { p1 with setKeyPool := p1.setKeyPool.erase si }) ∧
      (p1.mapPool si = none →
        ReserveKeyFromPool env p keypoolEntry =
          Res.threw { p1 with setKeyPool := p1.setKeyPool.erase si }) ∧
      (∀ e, p1.mapPool si = some e → e.vchPubKey ∉ p1.vKeys →
        ReserveKeyFromPool env p keypoolEntry =
          Res.threw { p1 with setKeyPool := p1.setKeyPool.erase si })) ∧
    (p.fFileBacked = false →
      ReserveKeyFromPool env p keypoolEntry =
        Res.ok (2 ^ 64 - 1, { keypoolEntry with vchPubKey := [] }) p) ∧
    (∀ b p1, p.fFileBacked = true → TopUpKeyPool env p = Res.ok b p1 →
      p1.setKeyPool = ∅ →
      p1 = p ∧
      ReserveKeyFromPool env p keypoolEntry =
        Res.ok (2 ^ 64 - 1, { keypoolEntry with vchPubKey := [] }) p) ∧
    (∀ p2, p.fFileBacked = true → TopUpKeyPool env p = Res.threw p2 →
      ReserveKeyFromPool env p keypoolEntry = Res.threw p2) := by
  refine ⟨?_, ?_, ?_, ?_⟩
  · intro b p1 si hfile htop hmin
    obtain ⟨hmem, hle⟩ := min_spec _ _ hmin
    have hpool := ReserveKeyFromPool_pool env p keypoolEntry b p1 si hfile htop hmin
    obtain ⟨ht1, ht2⟩ := ReserveKeyFromPool_throws env p keypoolEntry b p1 si hfile htop hmin
    refine ⟨hmem, hle, by rw [hpool], by rw [hpool], by rw [hpool], ?_, ht1, ht2⟩
    intro e hentry hkey hne
    exact (ReserveKeyFromPool_eq env p keypoolEntry b p1 hfile htop).1 si e hmin hentry
      hkey hne
  · intro hfile
    unfold ReserveKeyFromPool
    simp [hfile]
  · intro b p1 hfile htop hempty
    have hp := TopUpKeyPool_empty env p b p1 htop hempty
    have hres := (ReserveKeyFromPool_eq env p keypoolEntry b p1 hfile htop).2 hempty
    rw [hp] at hres
    exact ⟨hp, hres⟩
  · intro p2 hfile htop
    exact ReserveKeyFromPool_of_TopUp_threw env p keypoolEntry p2 hfile htop

/-- Witness of C15: the pool `{3, 5}` hands out its smallest index `3` with the entry of
`3`; index `5` stays in the set and the database is unchanged. -/
theorem ReserveKeyFromPool_oldest_witness :
    (3 ∈ twoKeyPool.setKeyPool ∧ (∀ j ∈ twoKeyPool.setKeyPool, 3 ≤ j) ∧
      (ReserveKeyFromPool poolEnv twoKeyPool { nTime := 0, vchPubKey := [7] }).pool.setKeyPool =
        twoKeyPool.setKeyPool.erase 3 ∧
      (ReserveKeyFromPool poolEnv twoKeyPool { nTime := 0, vchPubKey := [7] }).pool.mapPool =
        twoKeyPool.mapPool) ∧
    twoKeyPool.setKeyPool.erase 3 = {5} ∧
    ReserveKeyFromPool poolEnv twoKeyPool { nTime := 0, vchPubKey := [7] } =
      Res.ok (3, { nTime := 7, vchPubKey := [30] })
        { twoKeyPool with setKeyPool := twoKeyPool.setKeyPool.erase 3 } :=
  ⟨⟨((ReserveKeyFromPool_oldest poolEnv twoKeyPool { nTime := 0, vchPubKey := [7] }).1
        true twoKeyPool 3 rfl rfl (by decide)).1,
     ((ReserveKeyFromPool_oldest poolEnv twoKeyPool { nTime := 0, vchPubKey := [7] }).1
        true twoKeyPool 3 rfl rfl (by decide)).2.1,
     ((ReserveKeyFromPool_oldest poolEnv twoKeyPool { nTime := 0, vchPubKey := [7] }).1
        true twoKeyPool 3 rfl rfl (by decide)).2.2.1,
     ((ReserveKeyFromPool_oldest poolEnv twoKeyPool { nTime := 0, vchPubKey := [7] }).1
        true twoKeyPool 3 rfl rfl (by decide)).2.2.2.1⟩,
   by decide,
   ((ReserveKeyFromPool_oldest poolEnv twoKeyPool { nTime := 0, vchPubKey := [7] }).1
      true twoKeyPool 3 rfl rfl (by decide)).2.2.2.2.2.1
      { nTime := 7, vchPubKey := [30] } (by decide) (by decide) (by decide)⟩

/-- C17, as stated, fails: when the largest index is `2 ^ 64 - 1` the new index wraps to
`0`, which is not larger than the previous maximum. -/
theorem TopUpKeyPool_index_wraps :
    (TopUpKeyPool poolEnv lastIndexPool).val? = some true ∧
    (TopUpKeyPool poolEnv lastIndexPool).pool.setKeyPool = {0, 2 ^ 64 - 1} ∧
    lastIndexPool.setKeyPool = {2 ^ 64 - 1} := by
  decide

/-- C17 (top-up to the target), amended: on a file-backed wallet with starting size `s` and
target `t`, `TopUpKeyPool` returns `true` and changes nothing when `s >= t`, and returns
`false` and changes nothing when `s < t` and the wallet is locked.  On an unlocked wallet
whose largest index plus `t - s` stays below `2 ^ 64`, the call returns `true` when the
database accepts the writes, and whenever it returns the set contains every index it held
before plus exactly `t - s` new indices, each strictly larger than every previous index, so
that its size is `max s t`. -/
theorem TopUpKeyPool_spec (env : Env) (p : CKeyPool) (hfile : p.fFileBacked = true) :
    (nTargetSize env ≤ p.setKeyPool.card → TopUpKeyPool env p = Res.ok true p) ∧
    (p.setKeyPool.card < nTargetSize env → p.fLocked = true →
      TopUpKeyPool env p = Res.ok false p) ∧
    (p.fLocked = false →
      p.setKeyPool.sup id + (nTargetSize env - p.setKeyPool.card) < 2 ^ 64 →
      ((∀ i e, p.fnAccept i e = true) → ∃ p2, TopUpKeyPool env p = Res.ok true p2) ∧
      (∀ b p2, TopUpKeyPool env p = Res.ok b p2 →
        b = true ∧ p.setKeyPool ⊆ p2.setKeyPool ∧
        (p2.setKeyPool \ p.setKeyPool).card = nTargetSize env - p.setKeyPool.card ∧
        (∀ i ∈ p2.setKeyPool \ p.setKeyPool, ∀ j ∈ p.setKeyPool, j < i) ∧
        p2.setKeyPool.card = max p.setKeyPool.card (nTargetSize env))) := by
  obtain ⟨hfull, hlocked⟩ := TopUpKeyPool_unchanged env p hfile
  refine ⟨hfull, hlocked, ?_⟩
  intro hl hbound
  by_cases hge : nTargetSize env ≤ p.setKeyPool.card
  · rw [hfull hge]
    refine ⟨fun _ => ⟨p, rfl⟩, ?_⟩
    intro b p2 h
    cases h
    have h0 : nTargetSize env - p.setKeyPool.card = 0 := by omega
    refine ⟨rfl, Finset.Subset.refl _, by simp [h0], ?_, by rw [max_eq_left hge]⟩
    intro i hi
    simp at hi
  · have hlt : p.setKeyPool.card < nTargetSize env := by omega
    obtain ⟨hok, hthrow⟩ := TopUpKeyPool_loop env p hfile hl hlt
    constructor
    · intro hacc
      obtain ⟨p2, hloop⟩ := TopUpLoop_returns env (nTargetSize env - p.setKeyPool.card)
        (p.setKeyPool.sup id) p hacc
      exact ⟨p2, hok p2 hloop⟩
    · intro b p2 h
      cases hloop : TopUpLoop env (nTargetSize env - p.setKeyPool.card)
          (p.setKeyPool.sup id) p with
      | threw p3 =>
        rw [hthrow p3 hloop] at h
        cases h
      | ok u p3 =>
        cases u
        rw [hok p3 hloop] at h
        cases h
        obtain ⟨hset, -⟩ := TopUpLoop_ok env _ _ _ _ hbound hloop
        have hdisj : Disjoint p.setKeyPool
            (Finset.Ioc (p.setKeyPool.sup id)
              (p.setKeyPool.sup id + (nTargetSize env - p.setKeyPool.card))) := by
          rw [Finset.disjoint_left]
          intro j hj hj2
          have := le_sup_of_mem _ _ hj
          simp only [Finset.mem_Ioc] at hj2
          omega
        have hsd : p2.setKeyPool \ p.setKeyPool =
            Finset.Ioc (p.setKeyPool.sup id)
              (p.setKeyPool.sup id + (nTargetSize env - p.setKeyPool.card)) := by
          rw [hset, Finset.union_sdiff_left]
          exact Finset.sdiff_eq_self_of_disjoint hdisj.symm
        refine ⟨rfl, ?_, ?_, ?_, ?_⟩
        · rw [hset]; exact Finset.subset_union_left
        · rw [hsd, Nat.card_Ioc]; omega
        · intro i hi j hj
          rw [hsd] at hi
          have := le_sup_of_mem _ _ hj
          simp only [Finset.mem_Ioc] at hi
          omega
        · rw [hset, Finset.card_union_of_disjoint hdisj, Nat.card_Ioc]
          rw [max_eq_right (by omega)]
          omega

/-- Witness of C17: the unlocked pool `{1}` with target `2` gets one new index, larger
than `1`, and ends with two indices. -/
theorem TopUpKeyPool_spec_witness :
    true = true ∧ unlockedPool.setKeyPool ⊆ (TopUpKeyPool poolEnv unlockedPool).pool.setKeyPool ∧
    ((TopUpKeyPool poolEnv unlockedPool).pool.setKeyPool \ unlockedPool.setKeyPool).card =
      nTargetSize poolEnv - unlockedPool.setKeyPool.card ∧
    (∀ i ∈ (TopUpKeyPool poolEnv unlockedPool).pool.setKeyPool \ unlockedPool.setKeyPool,
      ∀ j ∈ unlockedPool.setKeyPool, j < i) ∧
    (TopUpKeyPool poolEnv unlockedPool).pool.setKeyPool.card =
      max unlockedPool.setKeyPool.card (nTargetSize poolEnv) :=
  ((TopUpKeyPool_spec poolEnv unlockedPool rfl).2.2 rfl (by decide)).2 true
    (TopUpKeyPool poolEnv unlockedPool).pool rfl

/-- C16, as stated, fails: the database entry of a reserved key, whose index is not in the
set, survives `NewKeyPool`; the database then holds an entry outside `{1, ..., nKeys}`. -/
theorem NewKeyPool_keeps_reserved_entry :
    (NewKeyPool poolEnv reservedPool).val? = some true ∧
    (NewKeyPool poolEnv reservedPool).pool.setKeyPool = {1, 2} ∧
    reservedPool.mapPool 500 = some { nTime := 5, vchPubKey := [50] } ∧
    (NewKeyPool poolEnv reservedPool).pool.mapPool 500 =
      some { nTime := 5, vchPubKey := [50] } := by
  decide

/-- C16 (new key pool), amended: on a locked file-backed wallet `NewKeyPool` returns `false`
and changes nothing.  On an unlocked file-backed wallet, with `nKeys` the target size (below
`2 ^ 64`), the call returns `true` when the database accepts the writes, and whenever it
returns, `setKeyPool` is `{1, ..., nKeys}`, the database holds at each of these indices an
entry with a key generated during the call, every other entry whose index was in the set
before the call is erased, and the entries at indices outside the old set and outside
`{1, ..., nKeys}` are left as they were. -/
theorem NewKeyPool_spec (env : Env) (p : CKeyPool) (hfile : p.fFileBacked = true)
    (hn : nTargetSize env < 2 ^ 64) :
    (p.fLocked = true → NewKeyPool env p = Res.ok false p) ∧
    (p.fLocked = false →
      ((∀ i e, p.fnAccept i e = true) → ∃ p2, NewKeyPool env p = Res.ok true p2) ∧
      (∀ b p2, NewKeyPool env p = Res.ok b p2 →
        b = true ∧ p2.setKeyPool = Finset.Icc 1 (nTargetSize env) ∧
        p2.vKeys.length = p.vKeys.length + nTargetSize env ∧
        (∀ i ∈ Finset.Icc 1 (nTargetSize env),
          ∃ k, p2.mapPool i = some { nTime := env.nUnifiedTime, vchPubKey := k } ∧
            p2.vKeys[p.vKeys.length + (i - 1)]? = some k) ∧
        (∀ i, i ∉ Finset.Icc 1 (nTargetSize env) →
          p2.mapPool i = if i ∈ p.setKeyPool then none else p.mapPool i))) := by
  constructor
  · intro hl
    unfold NewKeyPool
    simp [hfile, hl]
  · intro hl
    obtain ⟨hok, hthrow⟩ := NewKeyPool_loop env p hfile hl
    have heq := NewKeyLoop_eq_TopUpLoop env (nTargetSize env) 0
      { p with mapPool := fun i => if i ∈ p.setKeyPool then none else p.mapPool i,
               setKeyPool := ∅ } (by omega)
    constructor
    · intro hacc
      obtain ⟨p2, hloop⟩ := TopUpLoop_returns env (nTargetSize env) 0
        { p with mapPool := fun i => if i ∈ p.setKeyPool then none else p.mapPool i,
                 setKeyPool := ∅ } hacc
      exact ⟨p2, hok p2 (by rw [heq]; exact hloop)⟩
    · intro b p2 h
      cases hloop : NewKeyLoop env (nTargetSize env) 0
          { p with mapPool := fun i => if i ∈ p.setKeyPool then none else p.mapPool i,
                   setKeyPool := ∅ } with
      | threw p3 =>
        rw [hthrow p3 hloop] at h
        cases h
      | ok u p3 =>
        cases u
        rw [hok p3 hloop] at h
        cases h
        rw [heq] at hloop
        obtain ⟨h1, -, -, -, h5, -, h7, h8⟩ := TopUpLoop_ok env _ _ _ _ (by omega) hloop
        have hIcc : Finset.Ioc 0 (0 + nTargetSize env) = Finset.Icc 1 (nTargetSize env) := by
          ext x
          simp only [Finset.mem_Ioc, Finset.mem_Icc]
          omega
        rw [hIcc] at h1 h7 h8
        refine ⟨rfl, by rw [h1]; simp, h5, ?_, h7⟩
        intro i hi
        obtain ⟨k, hk1, hk2⟩ := h8 i hi
        exact ⟨k, hk1, by simpa using hk2⟩

/-- Witness of C16: an unlocked wallet with target `2`: the set becomes `{1, 2}`, two keys
are generated, and the entry at index `500`, outside both sets, is left as it was. -/
theorem NewKeyPool_spec_witness :
    true = true ∧
    (NewKeyPool poolEnv reservedPool).pool.setKeyPool = Finset.Icc 1 (nTargetSize poolEnv) ∧
    (NewKeyPool poolEnv reservedPool).pool.vKeys.length =
      reservedPool.vKeys.length + nTargetSize poolEnv ∧
    (∀ i ∈ Finset.Icc 1 (nTargetSize poolEnv),
      ∃ k, (NewKeyPool poolEnv reservedPool).pool.mapPool i =
          some { nTime := poolEnv.nUnifiedTime, vchPubKey := k } ∧
        (NewKeyPool poolEnv reservedPool).pool.vKeys[reservedPool.vKeys.length + (i - 1)]? =
          some k) ∧
    (∀ i, i ∉ Finset.Icc 1 (nTargetSize poolEnv) →
      (NewKeyPool poolEnv reservedPool).pool.mapPool i =
        if i ∈ reservedPool.setKeyPool then none else reservedPool.mapPool i) :=
  ((NewKeyPool_spec poolEnv reservedPool rfl (by decide)).2 rfl).2 true
    (NewKeyPool poolEnv reservedPool).pool rfl

/-- C19, evaluated on the failing sequence: the locked pool `{1}` hands out index `1`, and
the next `AddKey` returns index `1` again, replaces the database entry of the reserved key
and puts `1` back into the set although neither `KeepKey` nor `ReturnKey` was called. -/
theorem AddKey_reuses_reserved_index :
    (ReserveKeyFromPool poolEnv lockedPool { nTime := 0, vchPubKey := [] }).val? =
      some (1, { nTime := 5, vchPubKey := [50] }) ∧
    (AddKey (ReserveKeyFromPool poolEnv lockedPool { nTime := 0, vchPubKey := [] }).pool
      { nTime := 9, vchPubKey := [9] }).val? = some 1 ∧
    (AddKey (ReserveKeyFromPool poolEnv lockedPool { nTime := 0, vchPubKey := [] }).pool
      { nTime := 9, vchPubKey := [9] }).pool.mapPool 1 =
        some { nTime := 9, vchPubKey := [9] } ∧
    1 ∈ (AddKey (ReserveKeyFromPool poolEnv lockedPool { nTime := 0, vchPubKey := [] }).pool
      { nTime := 9, vchPubKey := [9] }).pool.setKeyPool := by
  decide

/-- C20, as stated, fails in four ways.  On the locked wallet with an empty pool there is no
entry and the value returned is the reading of the clock; there `ReserveKeyFromPool` returns
index `2 ^ 64 - 1`, and `ReturnKey` of that index leaves the set `{2 ^ 64 - 1}`, not the
empty set.  On the locked pool `{2 ^ 64 - 1}` the call takes the index for the mark of the
empty pool: it returns the reading of the clock, not the time `5` of the entry, and the set
is empty afterwards, while `TopUpKeyPool` alone leaves `{2 ^ 64 - 1}`.  On the pool `{3, 5}`
whose database has no entry for index `3` the call throws and the set is `{5}` afterwards,
while `TopUpKeyPool` alone leaves `{3, 5}`. -/
theorem GetOldestKeyPoolTime_consumes_key :
    (emptyPool.fFileBacked = true ∧ emptyPool.setKeyPool = ∅ ∧
      (GetOldestKeyPoolTime poolEnv emptyPool).val? = some poolEnv.nUnifiedTime) ∧
    ((ReserveKeyFromPool poolEnv emptyPool
        { nTime := poolEnv.nUnifiedTime, vchPubKey := [] }).val? =
        some (2 ^ 64 - 1, { nTime := poolEnv.nUnifiedTime, vchPubKey := [] }) ∧
      (ReturnKey
        (ReserveKeyFromPool poolEnv emptyPool
          { nTime := poolEnv.nUnifiedTime, vchPubKey := [] }).pool
        (2 ^ 64 - 1)).setKeyPool = {2 ^ 64 - 1}) ∧
    (sentinelPool.fFileBacked = true ∧
      sentinelPool.mapPool (2 ^ 64 - 1) = some { nTime := 5, vchPubKey := [50] } ∧
      (TopUpKeyPool poolEnv sentinelPool).pool.setKeyPool = {2 ^ 64 - 1} ∧
      (GetOldestKeyPoolTime poolEnv sentinelPool).val? = some poolEnv.nUnifiedTime ∧
      (GetOldestKeyPoolTime poolEnv sentinelPool).pool.setKeyPool = ∅) ∧
    (orphanPool.fFileBacked = true ∧
      (TopUpKeyPool poolEnv orphanPool).pool.setKeyPool = {3, 5} ∧
      (GetOldestKeyPoolTime poolEnv orphanPool).val? = none ∧
      (GetOldestKeyPoolTime poolEnv orphanPool).pool.setKeyPool = {5}) := by
  decide

/-- C20 (`GetOldestKeyPoolTime` does not consume a key), amended.  On a file-backed wallet
let `p1` be the pool that `TopUpKeyPool` alone leaves, and `si` its smallest index.  When
`si` is not `2 ^ 64 - 1` and the database holds the entry of `si` with a non-empty key of
the wallet, `ReserveKeyFromPool` followed by `ReturnKey si` restores the set, the pool after
`GetOldestKeyPoolTime` is `p1` and the value returned is the `nTime` of that entry.  When
`si` is `2 ^ 64 - 1`, with such an entry, the call returns the reading of the clock and has
removed `si` from the set.  When the entry is missing, or the wallet does not hold its key,
the call throws and has removed `si` from the set.  When `p1` is empty the pool is unchanged
and the value returned is the reading of the clock.  When the top-up throws, the call throws
with the pool the top-up left.  When the wallet is locked or the pool is already full, `p1`
is the pool before the call. -/
theorem GetOldestKeyPoolTime_spec (env : Env) (p : CKeyPool)
    (hfile : p.fFileBacked = true) :
    (∀ b p1, TopUpKeyPool env p = Res.ok b p1 →
      (∀ si, p1.setKeyPool.min = some si →
        (∀ e, p1.mapPool si = some e → e.vchPubKey ∈ p1.vKeys → e.vchPubKey ≠ [] →
          (si ≠ 2 ^ 64 - 1 →
            (ReturnKey
              (ReserveKeyFromPool env p { nTime := env.nUnifiedTime, vchPubKey := [] }).pool
              si).setKeyPool = p1.setKeyPool ∧
            GetOldestKeyPoolTime env p = Res.ok e.nTime p1) ∧
          (si = 2 ^ 64 - 1 →
            GetOldestKeyPoolTime env p =
              Res.ok env.nUnifiedTime { p1 with setKeyPool := p1.setKeyPool.erase si })) ∧
        (p1.mapPool si = none →
          GetOldestKeyPoolTime env p =
            Res.threw { p1 with setKeyPool := p1.setKeyPool.erase si }) ∧
        (∀ e, p1.mapPool si = some e → e.vchPubKey ∉ p1.vKeys →
          GetOldestKeyPoolTime env p =
            Res.threw { p1 with setKeyPool := p1.setKeyPool.erase si })) ∧
      (p1.setKeyPool = ∅ →
        p1 = p ∧ GetOldestKeyPoolTime env p = Res.ok env.nUnifiedTime p)) ∧
    (∀ p2, TopUpKeyPool env p = Res.threw p2 → GetOldestKeyPoolTime env p = Res.threw p2) ∧
    (p.fLocked = true ∨ nTargetSize env ≤ p.setKeyPool.card →
      ∃ b, TopUpKeyPool env p = Res.ok b p) := by
  refine ⟨?_, ?_, ?_⟩
  · intro b p1 htop
    have hfile1 : p1.fFileBacked = true := by
      rw [TopUpKeyPool_fFileBacked env p b p1 htop]; exact hfile
    refine ⟨?_, ?_⟩
    · intro si hmin
      obtain ⟨ht1, ht2⟩ := ReserveKeyFromPool_throws env p
        { nTime := env.nUnifiedTime, vchPubKey := [] } b p1 si hfile htop hmin
      refine ⟨?_, ?_, ?_⟩
      · intro e hentry hkey hne
        have hres := (ReserveKeyFromPool_eq env p
          { nTime := env.nUnifiedTime, vchPubKey := [] } b p1 hfile htop).1 si e hmin hentry
          hkey hne
        have hmem := (min_spec _ _ hmin).1
        have hback : ReturnKey { p1 with setKeyPool := p1.setKeyPool.erase si } si = p1 := by
          unfold ReturnKey
          have hf : ({ p1 with setKeyPool := p1.setKeyPool.erase si } :
              CKeyPool).fFileBacked = true := hfile1
          rw [if_pos hf]
          exact CKeyPool.eta_set p1 _ (Finset.insert_erase hmem)
        refine ⟨?_, ?_⟩
        · intro hsi
          constructor
          · rw [hres]
            show (ReturnKey { p1 with setKeyPool := p1.setKeyPool.erase si } si).setKeyPool
              = _
            rw [hback]
          · unfold GetOldestKeyPoolTime
            simp only [hres]
            have hne2 : (si == 2 ^ 64 - 1) = false := by simpa using hsi
            simp only [hne2, Bool.false_eq_true, if_false, hback]
        · intro hsi
          unfold GetOldestKeyPoolTime
          simp only [hres]
          have heq2 : (si == 2 ^ 64 - 1) = true := by simpa using hsi
          simp only [heq2, if_true]
      · intro hentry
        unfold GetOldestKeyPoolTime
        simp only [ht1 hentry]
      · intro e hentry hbad
        unfold GetOldestKeyPoolTime
        simp only [ht2 e hentry hbad]
    · intro hempty
      have hp := TopUpKeyPool_empty env p b p1 htop hempty
      have hres := (ReserveKeyFromPool_eq env p
        { nTime := env.nUnifiedTime, vchPubKey := [] } b p1 hfile htop).2 hempty
      refine ⟨hp, ?_⟩
      unfold GetOldestKeyPoolTime
      simp only [hres]
      rw [hp]
      simp
  · intro p2 htop
    unfold GetOldestKeyPoolTime
    simp only [ReserveKeyFromPool_of_TopUp_threw env p _ p2 hfile htop]
  · intro h
    by_cases hfull : nTargetSize env ≤ p.setKeyPool.card
    · exact ⟨true, (TopUpKeyPool_unchanged env p hfile).1 hfull⟩
    · rcases h with hl | hf
      · exact ⟨false, (TopUpKeyPool_unchanged env p hfile).2 (by omega) hl⟩
      · exact absurd hf hfull

/-- Witness of C20: on the locked pool `{3, 5}` reserving and returning index `3` restores
the set, and the call returns the time `7` of the entry of index `3` and leaves the pool as
it was. -/
theorem GetOldestKeyPoolTime_spec_witness :
    (ReturnKey
      (ReserveKeyFromPool poolEnv twoKeyPool
        { nTime := poolEnv.nUnifiedTime, vchPubKey := [] }).pool 3).setKeyPool =
      twoKeyPool.setKeyPool ∧
    GetOldestKeyPoolTime poolEnv twoKeyPool = Res.ok 7 twoKeyPool :=
  (((((GetOldestKeyPoolTime_spec poolEnv twoKeyPool rfl).1 true twoKeyPool rfl).1 3
    (by decide)).1 { nTime := 7, vchPubKey := [30] } (by decide) (by decide)
    (by decide)).1 (by decide))

end Legacy

/-! ## The balances API: the pagination of `ListBalances` -/

namespace TAO

namespace API

namespace Finance

end Finance

end API

end TAO
